import Mathlib

/-!
Verification development for the loopstack markdown-parser repository.

The definitions below are a shallow embedding of `src/markdown-parser.ts`
(the `MarkdownParser` class and its `ContextDto` helper).  JavaScript
objects are modelled as insertion-ordered association lists enumerated in
ES2015+ own-key order (array-index keys first, ascending; `jsEntries`), JS
`undefined` as `Option.none` at the lookup interface and as the value
`JsValue.undef` where it is stored (array holes), thrown `Error`s as
`Except.error` carrying the thrown message string, and the mdast structural
tree as the inductive `MdNode`.  lodash `get`/`set` are embedded with
`baseSet`'s `isIndex` rule: a missing or non-object intermediate is created
as `[]` when the next path key is a canonical integer, as `{}` otherwise,
and array writes pad skipped slots with holes.
An earlier in-repository variant of the same file (kept as
`unnamed/part_001`) differs in two places (no `lowerCaseFirst` on heading
labels, boolean extraction by negation); it is embedded separately with a
`V1` suffix where a claim needs it.
-/

namespace MDP

/-- Model of a JS number as produced by the `Number(string)` conversion:
either NaN, an infinity, or a finite value (idealized to an exact rational;
binary floating-point rounding is not modelled, no claim depends on it). -/
inductive JsNum where
  | nan
  | inf
  | ninf
  | val (q : ℚ)
deriving DecidableEq

/-- A JavaScript runtime value as used by the parser: `undefined`, `null`,
strings, numbers, booleans, arrays, and plain objects.  Objects are modelled
as insertion-ordered association lists, matching JS property insertion
order.  `undef` stands both for the value `undefined` and for an array hole
(JS `arr[5] = v` on a shorter array creates holes): no operation this
program performs on a slot distinguishes a hole from a stored `undefined`
(both read back as `undefined`, both are falsy, both render as the empty
string inside `Array.prototype.toString`), so one constructor models both. -/
inductive JsValue where
  | undef
  | null
  | str (s : String)
  | num (n : JsNum)
  | bool (b : Bool)
  | arr (elems : List JsValue)
  | obj (fields : List (String × JsValue))

/-- Whether a value is the `undefined` value (an array hole). -/
def JsValue.isUndef : JsValue → Bool
  | JsValue.undef => true
  | _ => false

/-- JS property lookup on an (insertion-ordered) object: first match wins.
(In a real JS object keys are unique; first-match agrees on those.) -/
def lookupField {α : Type} : List (String × α) → String → Option α
  | [], _ => none
  | (k, v) :: rest, key => if k = key then some v else lookupField rest key

/-- JS property assignment `o[k] = v` on a plain object: overwrites in place
keeping the key position, or appends a new key at the end (JS insertion
order). -/
def setField {α : Type} : List (String × α) → String → α → List (String × α)
  | [], key, v => [(key, v)]
  | (k, w) :: rest, key, v =>
    if k = key then (key, v) :: rest else (k, w) :: setField rest key v

/-- JS truthiness test (`!obj` is `true` exactly on falsy values). -/
def jsFalsy : JsValue → Bool
  | JsValue.undef => true
  | JsValue.null => true
  | JsValue.str s => s.data == []
  | JsValue.bool b => !b
  | JsValue.num JsNum.nan => true
  | JsValue.num (JsNum.val q) => q = 0
  | JsValue.num _ => false
  | JsValue.arr _ => false
  | JsValue.obj _ => false

/-- Rendering of a JS number back to a string (`${n}`); decimal rendering of
finite values is idealized, no claim depends on it. -/
def jsNumToString : JsNum → String
  | JsNum.nan => "NaN"
  | JsNum.inf => "Infinity"
  | JsNum.ninf => "-Infinity"
  | JsNum.val q => if q.den = 1 then toString q.num else toString q

/-- JS string coercion as in a template literal `${v}`. -/
def jsTemplate : JsValue → String
  | JsValue.undef => "undefined"
  | JsValue.null => "null"
  | JsValue.str s => s
  | JsValue.bool b => if b then "true" else "false"
  | JsValue.num n => jsNumToString n
  | JsValue.obj _ => "[object Object]"
  | JsValue.arr xs => jsTemplateList xs
where
  /-- `Array.prototype.toString`: elements joined by `","`, `null`,
  `undefined` and holes rendered as the empty string. -/
  jsTemplateList : List JsValue → String
  | [] => ""
  | [v] => (match v with | JsValue.null => "" | JsValue.undef => "" | w => jsTemplate w)
  | v :: rest =>
    (match v with | JsValue.null => "" | JsValue.undef => "" | w => jsTemplate w)
      ++ "," ++ jsTemplateList rest

/-- `${x}` where `x` may be `undefined`. -/
def jsTemplateU : Option JsValue → String
  | none => "undefined"
  | some v => jsTemplate v

/-- JS spread `[...v]`: arrays spread to their elements, strings to their
characters; every other value is not iterable and throws a `TypeError`. -/
def jsSpread : JsValue → Except String (List JsValue)
  | JsValue.arr xs => Except.ok xs
  | JsValue.str s => Except.ok (s.data.map fun c => JsValue.str (String.singleton c))
  | _ => Except.error "TypeError"

/-- Digit run to a natural number. -/
def digitsToNat (cs : List Char) : Nat :=
  cs.foldl (fun a c => a * 10 + (c.toNat - 48)) 0

/-- lodash `reIsUint = /^(?:0|[1-9]\d*)$/`: a canonical unsigned decimal
integer string (no sign, no leading zero). -/
def reIsUint : List Char → Bool
  | [] => false
  | ['0'] => true
  | c :: rest => decide ('1' ≤ c) && decide (c ≤ '9') && rest.all Char.isDigit

/-- lodash `isIndex(value)` on a string path segment with the default
`length` bound: `reIsUint.test(value) && value > -1 && value % 1 == 0 &&
value < MAX_SAFE_INTEGER`.  Inside `baseSet` this decides whether a missing
intermediate is created as `[]` (index) or `{}` (other key). -/
def isIndex (s : String) : Bool :=
  reIsUint s.data && decide (digitsToNat s.data < 9007199254740991)

/-- An ES *array index* property key (`OrdinaryOwnPropertyKeys`): a
canonical unsigned decimal below `2^32 - 1`.  ES2015+ enumerates these keys
first, in ascending numeric order, before all other string keys. -/
def isArrayIndexKey (s : String) : Bool :=
  reIsUint s.data && decide (digitsToNat s.data < 4294967295)

/-- lodash `isObject`: objects and arrays (functions are not modelled);
`null`, `undefined` and primitives are not objects. -/
def isObjectJs : JsValue → Bool
  | JsValue.obj _ => true
  | JsValue.arr _ => true
  | _ => false

/-- JS `arr[i] = v` for an array index `i`: replaces the slot when it
exists, otherwise pads the skipped slots with holes and appends. -/
def setIndex : List JsValue → Nat → JsValue → List JsValue
  | [], 0, v => [v]
  | [], n + 1, v => JsValue.undef :: setIndex [] n v
  | _ :: rest, 0, v => v :: rest
  | x :: rest, n + 1, v => x :: setIndex rest n v

/-- One step of the lodash `baseGet`/`baseSet` walk: `value[key]` on the
object and array cases; on anything else the walk has already stopped (or
the read is `undefined`).  On an array, an array-index key reads the slot
(an out-of-range index is `undefined`); array keys that are not array
indices (`"length"`, a huge canonical integer stored as a plain own
property) are not modelled — no reachable state of this program reads
one. -/
def readField : JsValue → String → Option JsValue
  | JsValue.obj fields, key => lookupField fields key
  | JsValue.arr xs, key =>
    if isArrayIndexKey key then xs[digitsToNat key.data]? else none
  | _, _ => none

/-- lodash `get(obj, path)` (`baseGet`): walk the path while the current
value is non-nullish; an empty path, a missing key, or a walk off a
primitive yields `undefined` (`none`). -/
def getPath : JsValue → List String → Option JsValue
  | _, [] => none
  | v, key :: rest =>
    match readField v key with
    | some w => match rest with
      | [] => some w
      | _ :: _ => getPath w rest
    | none => none

/-- `assignValue(nested, key, v)` of `baseSet`: write one property.  On an
array, an array-index key writes the slot (`setIndex`); a key that is not
an array index would become a non-index own property of the array object —
every later step of this program ignores such properties (the normalizer's
array branch maps index slots only, and no path the parser builds reads one
back), so the model drops the write. -/
def writeField : JsValue → String → JsValue → JsValue
  | JsValue.obj fields, key, v => JsValue.obj (setField fields key v)
  | JsValue.arr xs, key, v =>
    if isArrayIndexKey key then JsValue.arr (setIndex xs (digitsToNat key.data) v)
    else JsValue.arr xs
  | w, _, _ => w

/-- The walk of lodash `baseSet` below the root: at each non-final key the
intermediate is kept when it `isObject`, and otherwise replaced by `[]`
when the next key `isIndex`, by `{}` when not, exactly as
`newValue = isObject(objValue) ? objValue : (isIndex(path[index + 1]) ? [] : {})`. -/
def setPathIn : JsValue → List String → JsValue → JsValue
  | nested, [], _ => nested
  | nested, [key], x => writeField nested key x
  | nested, key :: key2 :: rest, x =>
    let objValue := (readField nested key).getD JsValue.undef
    let child := cond (isObjectJs objValue) objValue
      (cond (isIndex key2) (JsValue.arr []) (JsValue.obj []))
    writeField nested key (setPathIn child (key2 :: rest) x)

/-- lodash `set(obj, path, value)`: a non-object target is returned
unchanged (`if (!isObject(object)) return object`); an empty path writes
nothing. -/
def setPath (v : JsValue) (path : List String) (x : JsValue) : JsValue :=
  cond (isObjectJs v) (setPathIn v path x) v

/-- Optional exponent suffix of a JS numeric literal (`e`/`E`, sign, digits);
`some e` when the remaining characters are exactly such a suffix (or empty). -/
def parseExpSuffix : List Char → Option Int
  | [] => some 0
  | c :: rest =>
    if c = 'e' ∨ c = 'E' then
      let signed : Bool × List Char :=
        match rest with
        | '-' :: r => (true, r)
        | '+' :: r => (false, r)
        | r => (false, r)
      if signed.2 ≠ [] ∧ signed.2.all Char.isDigit then
        some ((if signed.1 then -1 else 1) * (digitsToNat signed.2 : Int))
      else none
    else none

/-- Unsigned decimal literal (`digits`, `digits.digits`, `.digits`, optional
exponent), as accepted by JS `Number`; hex/octal/binary literals are not
modelled (no claim uses them). -/
def parseUnsignedDec (cs : List Char) : Option ℚ :=
  let intSplit := cs.span Char.isDigit
  match intSplit.2 with
  | '.' :: afterDot =>
    let fracSplit := afterDot.span Char.isDigit
    if intSplit.1 = [] ∧ fracSplit.1 = [] then none
    else
      (parseExpSuffix fracSplit.2).map fun e =>
        ((digitsToNat intSplit.1 : ℚ) +
            (digitsToNat fracSplit.1 : ℚ) / ((10 : ℚ) ^ fracSplit.1.length)) *
          (10 : ℚ) ^ e
  | rest =>
    if intSplit.1 = [] then none
    else (parseExpSuffix rest).map fun e => (digitsToNat intSplit.1 : ℚ) * (10 : ℚ) ^ e

/-- An ASCII whitespace character as trimmed by JS `Number` conversion
(Unicode whitespace beyond ASCII is not modelled). -/
def jsWhitespace (c : Char) : Bool :=
  c = ' ' ∨ c = '\t' ∨ c = '\n' ∨ c = '\r' ∨ c = '\x0b' ∨ c = '\x0c'

/-- Leading/trailing whitespace trimming on the character list. -/
def jsTrim (cs : List Char) : List Char :=
  ((cs.dropWhile jsWhitespace).reverse.dropWhile jsWhitespace).reverse

/-- The JS `Number(string)` conversion: trimmed empty string is `0`,
`Infinity` forms are infinities, decimal literals parse, anything else is
NaN. -/
def jsToNumber (s : String) : JsNum :=
  let t := jsTrim s.data
  if t = [] then JsNum.val 0
  else
    let signed : Bool × List Char :=
      match t with
      | '-' :: r => (true, r)
      | '+' :: r => (false, r)
      | r => (false, r)
    if signed.2 = "Infinity".data then (if signed.1 then JsNum.ninf else JsNum.inf)
    else
      match parseUnsignedDec signed.2 with
      | some q => JsNum.val (if signed.1 then -q else q)
      | none => JsNum.nan

/-- JS `String.prototype.toLowerCase`, ASCII-accurate. -/
def jsToLowerCase (s : String) : String :=
  String.mk (s.data.map Char.toLower)

/-- `lowerCaseFirst` from `src/markdown-parser.ts`:
`str.charAt(0).toLowerCase() + str.slice(1)` (ASCII-accurate). -/
def lowerCaseFirst (str : String) : String :=
  match str.data with
  | [] => ""
  | c :: rest => String.mk (c.toLower :: rest)

/-- The mdast structural tree, restricted to the node kinds the parser
dispatches on, plus `other` for any further `type` string (which the
extractor rejects).  A heading carries its `depth`, a list its `ordered`
flag; literal kinds carry their `value`. -/
inductive MdNode where
  | heading (depth : Nat) (children : List MdNode)
  | text (value : String)
  | inlineCode (value : String)
  | code (value : String)
  | html (value : String)
  | yaml (value : String)
  | paragraph (children : List MdNode)
  | strong (children : List MdNode)
  | italic (children : List MdNode)
  | emphasis (children : List MdNode)
  | footnote (children : List MdNode)
  | footnoteDefinition (children : List MdNode)
  | link (children : List MdNode)
  | linkReference (children : List MdNode)
  | list (ordered : Bool) (children : List MdNode)
  | delete (children : List MdNode)
  | thematicBreak
  | lineBreak
  | listItem (children : List MdNode)
  | other (ty : String)

/-- The mdast `type` discriminator string of a node. -/
def MdNode.typeName : MdNode → String
  | MdNode.heading _ _ => "heading"
  | MdNode.text _ => "text"
  | MdNode.inlineCode _ => "inlineCode"
  | MdNode.code _ => "code"
  | MdNode.html _ => "html"
  | MdNode.yaml _ => "yaml"
  | MdNode.paragraph _ => "paragraph"
  | MdNode.strong _ => "strong"
  | MdNode.italic _ => "italic"
  | MdNode.emphasis _ => "emphasis"
  | MdNode.footnote _ => "footnote"
  | MdNode.footnoteDefinition _ => "footnoteDefinition"
  | MdNode.link _ => "link"
  | MdNode.linkReference _ => "linkReference"
  | MdNode.list _ _ => "list"
  | MdNode.delete _ => "delete"
  | MdNode.thematicBreak => "thematicBreak"
  | MdNode.lineBreak => "break"
  | MdNode.listItem _ => "listItem"
  | MdNode.other ty => ty

/-- Whether a node is a heading (the only structural kind in the pass). -/
def isHeadingNode : MdNode → Bool
  | MdNode.heading _ _ => true
  | _ => false

mutual

/-- `parseStringType(node, index, parent)` from the source.  The only use of
`parent` is the `ordered` flag of a `list` parent for `listItem` rendering,
so the embedding passes that flag (`false` when the parent is not a list,
matching JS `undefined.ordered` truthiness).  Unknown node kinds throw
`Unexpected content type`. -/
def parseStringType (node : MdNode) (index : Nat) (parentOrdered : Bool) :
    Except String String :=
  match node with
  | MdNode.text v => Except.ok v
  | MdNode.inlineCode v => Except.ok v
  | MdNode.code v => Except.ok v
  | MdNode.html v => Except.ok v
  | MdNode.yaml v => Except.ok v
  | MdNode.paragraph cs => parseChildValueAux cs 0 false
  | MdNode.strong cs => parseChildValueAux cs 0 false
  | MdNode.italic cs => parseChildValueAux cs 0 false
  | MdNode.emphasis cs => parseChildValueAux cs 0 false
  | MdNode.footnote cs => parseChildValueAux cs 0 false
  | MdNode.footnoteDefinition cs => parseChildValueAux cs 0 false
  | MdNode.link cs => parseChildValueAux cs 0 false
  | MdNode.linkReference cs => parseChildValueAux cs 0 false
  | MdNode.list ordered cs => parseChildValueAux cs 0 ordered
  | MdNode.delete _ => Except.ok ""
  | MdNode.thematicBreak => Except.ok ""
  | MdNode.lineBreak => Except.ok "\n"
  | MdNode.listItem cs =>
    match parseChildValueAux cs 0 false with
    | Except.ok s =>
      Except.ok
        ((if parentOrdered then toString (index + 1) ++ "." else "-") ++ " " ++ s ++ "\n")
    | Except.error e => Except.error e
  | node => Except.error ("Unexpected content type: " ++ node.typeName)

/-- `parseChildValue(node)`: children mapped through `parseStringType` with
their index and joined with no separator; the running index is threaded
explicitly. -/
def parseChildValueAux (children : List MdNode) (index : Nat) (parentOrdered : Bool) :
    Except String String :=
  match children with
  | [] => Except.ok ""
  | c :: rest =>
    match parseStringType c index parentOrdered with
    | Except.ok s =>
      match parseChildValueAux rest (index + 1) parentOrdered with
      | Except.ok t => Except.ok (s ++ t)
      | Except.error e => Except.error e
    | Except.error e => Except.error e

end

/-- `parseChildValue` at the start of a child list, carrying the parent's
`ordered` flag (`false` for non-list parents). -/
def parseChildValue (children : List MdNode) (parentOrdered : Bool) :
    Except String String :=
  parseChildValueAux children 0 parentOrdered

/-- `parseArrayItemType`: only `listItem` nodes are valid array items. -/
def parseArrayItemType (node : MdNode) : Except String String :=
  match node with
  | MdNode.listItem cs => parseChildValueAux cs 0 false
  | node => Except.error ("Unexpected array item type: " ++ node.typeName)

/-- `parseList`: one string per list item. -/
def parseList (children : List MdNode) : Except String (List String) :=
  match children with
  | [] => Except.ok []
  | c :: rest =>
    match parseArrayItemType c with
    | Except.ok s =>
      match parseList rest with
      | Except.ok ss => Except.ok (s :: ss)
      | Except.error e => Except.error e
    | Except.error e => Except.error e

/-- `parseArrayType`: only a `list` node is accepted for array extraction. -/
def parseArrayType (node : MdNode) : Except String (List String) :=
  match node with
  | MdNode.list _ cs => parseList cs
  | node => Except.error ("Unexpected array type: " ++ node.typeName)

/-- `parseValue(node, type)` from `src/markdown-parser.ts`: dispatch on the
schema `type` string; `boolean` is the case-insensitive comparison of the
extracted string with `"true"`; an unknown `type` throws
`Unknown schema type`. -/
def parseValue (node : MdNode) (ty : String) : Except String JsValue :=
  if ty = "array" then
    match parseArrayType node with
    | Except.ok xs => Except.ok (JsValue.arr (xs.map JsValue.str))
    | Except.error e => Except.error e
  else if ty = "string" then
    match parseStringType node 0 false with
    | Except.ok s => Except.ok (JsValue.str s)
    | Except.error e => Except.error e
  else if ty = "number" then
    match parseStringType node 0 false with
    | Except.ok s => Except.ok (JsValue.num (jsToNumber s))
    | Except.error e => Except.error e
  else if ty = "boolean" then
    match parseStringType node 0 false with
    | Except.ok s => Except.ok (JsValue.bool (jsToLowerCase s == "true"))
    | Except.error e => Except.error e
  else if ty = "null" then
    Except.ok JsValue.null
  else
    Except.error ("Unknown schema type " ++ ty)

/-- `parseValue` of the `unnamed/part_001` variant: identical except that
`boolean` is computed as `!parseStringType(node)`, i.e. JS negation of the
extracted string (true exactly on the empty string). -/
def parseValueV1 (node : MdNode) (ty : String) : Except String JsValue :=
  if ty = "array" then
    match parseArrayType node with
    | Except.ok xs => Except.ok (JsValue.arr (xs.map JsValue.str))
    | Except.error e => Except.error e
  else if ty = "string" then
    match parseStringType node 0 false with
    | Except.ok s => Except.ok (JsValue.str s)
    | Except.error e => Except.error e
  else if ty = "number" then
    match parseStringType node 0 false with
    | Except.ok s => Except.ok (JsValue.num (jsToNumber s))
    | Except.error e => Except.error e
  else if ty = "boolean" then
    match parseStringType node 0 false with
    | Except.ok s => Except.ok (JsValue.bool (s.data == []))
    | Except.error e => Except.error e
  else if ty = "null" then
    Except.ok JsValue.null
  else
    Except.error ("Unknown schema type " ++ ty)

/-- `SimpleJSONSchema` from the source: `type`, optional `properties`
(insertion-ordered, unique keys in real JS), optional `required`, optional
`items`. -/
inductive SimpleJSONSchema where
  | mk (type : String)
       (properties : Option (List (String × SimpleJSONSchema)))
       (required : Option (List String))
       (items : Option SimpleJSONSchema)

/-- The `type` field. -/
def SimpleJSONSchema.type : SimpleJSONSchema → String
  | SimpleJSONSchema.mk t _ _ _ => t

/-- The `properties` field. -/
def SimpleJSONSchema.properties :
    SimpleJSONSchema → Option (List (String × SimpleJSONSchema))
  | SimpleJSONSchema.mk _ p _ _ => p

/-- The `required` field. -/
def SimpleJSONSchema.required : SimpleJSONSchema → Option (List String)
  | SimpleJSONSchema.mk _ _ r _ => r

/-- The `items` field. -/
def SimpleJSONSchema.items : SimpleJSONSchema → Option SimpleJSONSchema
  | SimpleJSONSchema.mk _ _ _ i => i

/-- One entry of `ContextDto.tree`: a path segment, its schema fragment and
the heading depth that created it. -/
structure Frame where
  path : String
  schema : SimpleJSONSchema
  depth : Nat

/-- `ContextDto`: the context stack (modelled with the TOP of the TS array
at the HEAD of the list, so TS `push`/`pop` become `cons`/`tail`) and the
result tree under construction. -/
structure ContextDto where
  tree : List Frame
  result : JsValue

/-- The fresh context of a parse call: the root frame at depth 0 holding the
whole schema, and an empty result object. -/
def initCtx (schema : SimpleJSONSchema) : ContextDto :=
  { tree := [{ path := "root", schema := schema, depth := 0 }],
    result := JsValue.obj [] }

/-- `getPropertyPath()`: all path segments except the root key, ordered from
the root towards the top of the stack (TS `tree.slice(1)`). -/
def getPropertyPath (tree : List Frame) : List String :=
  (tree.reverse.drop 1).map Frame.path

/-- `getPropertySchema(name)`: `getCurrentSchema()?.properties?.[name]`. -/
def getPropertySchema (tree : List Frame) (name : String) :
    Option SimpleJSONSchema :=
  match tree with
  | [] => none
  | f :: _ =>
    match f.schema.properties with
    | some props => lookupField props name
    | none => none

/-- The merge performed by `addValue` between the value already at the
current path (`undefined` modelled as `none`) and a newly extracted value:
arrays concatenate via spread, everything else falls into the string branch
with a blank-line separator; `null === current` replaces outright. -/
def mergeValue (current : Option JsValue) (value : JsValue) :
    Except String JsValue :=
  match value with
  | JsValue.arr xs =>
    match current with
    | some JsValue.null => Except.ok (JsValue.arr xs)
    | none => Except.error "TypeError"
    | some cur =>
      match jsSpread cur with
      | Except.ok c => Except.ok (JsValue.arr (c ++ xs))
      | Except.error e => Except.error e
  | v =>
    match current with
    | some JsValue.null => Except.ok v
    | cur => Except.ok (JsValue.str (jsTemplateU cur ++ "\n\n" ++ jsTemplate v))

/-- `ContextDto.addValue`: merge the extracted value into the result at the
current property path. -/
def addValue (ctx : ContextDto) (value : JsValue) : Except String ContextDto :=
  let p := getPropertyPath ctx.tree
  match mergeValue (getPath ctx.result p) value with
  | Except.ok nv => Except.ok { ctx with result := setPath ctx.result p nv }
  | Except.error e => Except.error e

/-- `ContextDto.addProperty`: push a frame and seed the result at the new
property path with `null`. -/
def addProperty (ctx : ContextDto) (seg : String) (depth : Nat)
    (schema : SimpleJSONSchema) : ContextDto :=
  let tree := { path := seg, schema := schema, depth := depth } :: ctx.tree
  { tree := tree, result := setPath ctx.result (getPropertyPath tree) JsValue.null }

/-- The heading pop loop: `while (item.depth <= getCurrentDepth()) goLevelUp()`.
(On an empty stack the TS code would fault; that state is unreachable since
the root frame at depth 0 is never popped by a depth-`?` heading.) -/
def popToDepth (d : Nat) : List Frame → List Frame
  | [] => []
  | f :: rest => if d ≤ f.depth then popToDepth d rest else f :: rest

/-- One iteration of `reduceAstToObject`'s loop over a top-level child.
A heading pops to its level, derives the property name via `lowerCaseFirst`
(the `?? 'Object'` fallback in the source is dead: `parseChildValue` always
returns a string), and resolves property-before-items; anything else is
extracted against the current schema type and merged.  A JS fault on an
unreachable empty stack is modelled as `TypeError`. -/
def reduceStep (ctx : ContextDto) (item : MdNode) : Except String ContextDto :=
  match item with
  | MdNode.heading depth children =>
    let t := popToDepth depth ctx.tree
    match parseChildValue children false with
    | Except.error e => Except.error e
    | Except.ok nm =>
      let propertyName := lowerCaseFirst nm
      match getPropertySchema t propertyName with
      | some ps => Except.ok (addProperty { tree := t, result := ctx.result } propertyName depth ps)
      | none =>
        match t with
        | [] => Except.error "TypeError"
        | f :: _ =>
          match f.schema.items with
          | some its => Except.ok (addProperty { tree := t, result := ctx.result } propertyName depth its)
          | none =>
            Except.error ("Heading element " ++ propertyName ++ " has no schema definition.")
  | _ =>
    match ctx.tree with
    | [] => Except.error "TypeError"
    | f :: _ =>
      match parseValue item f.schema.type with
      | Except.ok v => addValue ctx v
      | Except.error e => Except.error e

/-- The full left-to-right pass of `reduceAstToObject` over the top-level
children. -/
def reduceAst (ctx : ContextDto) : List MdNode → Except String ContextDto
  | [] => Except.ok ctx
  | item :: rest =>
    match reduceStep ctx item with
    | Except.ok c => reduceAst c rest
    | Except.error e => Except.error e

/-- `reduceAstToObject(root, new ContextDto(schema)).result`, i.e. the body
of `parseToObject` after tokenization (the tokenizer is the external
collaborator; documents enter as their mdast child list). -/
def reduceAstToObject (children : List MdNode) (schema : SimpleJSONSchema) :
    Except String JsValue :=
  match reduceAst (initCtx schema) children with
  | Except.ok c => Except.ok c.result
  | Except.error e => Except.error e

/-- `reduceAstToObject`'s heading case in the `unnamed/part_001` variant:
no `lowerCaseFirst`, the no-schema error message does not name the label,
and content extraction uses that variant's `parseValue`. -/
def reduceStepV1 (ctx : ContextDto) (item : MdNode) : Except String ContextDto :=
  match item with
  | MdNode.heading depth children =>
    let t := popToDepth depth ctx.tree
    match parseChildValue children false with
    | Except.error e => Except.error e
    | Except.ok propertyName =>
      match getPropertySchema t propertyName with
      | some ps => Except.ok (addProperty { tree := t, result := ctx.result } propertyName depth ps)
      | none =>
        match t with
        | [] => Except.error "TypeError"
        | f :: _ =>
          match f.schema.items with
          | some its => Except.ok (addProperty { tree := t, result := ctx.result } propertyName depth its)
          | none => Except.error "Heading element has no schema definition."
  | _ =>
    match ctx.tree with
    | [] => Except.error "TypeError"
    | f :: _ =>
      match parseValueV1 item f.schema.type with
      | Except.ok v => addValue ctx v
      | Except.error e => Except.error e

/-- The `unnamed/part_001` variant of the full pass. -/
def reduceAstV1 (ctx : ContextDto) : List MdNode → Except String ContextDto
  | [] => Except.ok ctx
  | item :: rest =>
    match reduceStepV1 ctx item with
    | Except.ok c => reduceAstV1 c rest
    | Except.error e => Except.error e

/-- The `unnamed/part_001` variant of `parseToObject`'s body. -/
def reduceAstToObjectV1 (children : List MdNode) (schema : SimpleJSONSchema) :
    Except String JsValue :=
  match reduceAstV1 (initCtx schema) children with
  | Except.ok c => Except.ok c.result
  | Except.error e => Except.error e

/-- An `items` fragment is structurally smaller than its parent schema. -/
theorem sizeOf_items_lt (s its : SimpleJSONSchema) (h : s.items = some its) :
    sizeOf its < sizeOf s := by
  cases s with
  | mk t p r i =>
    simp only [SimpleJSONSchema.items] at h
    subst h
    simp
    omega

/-- A `properties` list is structurally smaller than its schema. -/
theorem sizeOf_properties_lt (s : SimpleJSONSchema)
    (props : List (String × SimpleJSONSchema)) (h : s.properties = some props) :
    sizeOf props < sizeOf s := by
  cases s with
  | mk t p r i =>
    simp only [SimpleJSONSchema.properties] at h
    subst h
    simp
    omega

/-- `Object.keys` of an association-list object, as entries: the first
binding of each key, in first-insertion order (`setField` keeps the
original key position on overwrite, so the first occurrence is the key's
property-creation position and its binding is what `obj[key]` reads). -/
def dedupKeys {α : Type} : List (String × α) → List (String × α)
  | [] => []
  | (k, v) :: rest => (k, v) :: (dedupKeys rest).filter (fun kv => kv.1 != k)

/-- Insertion into a list sorted by ascending numeric key value. -/
def insertAsc {α : Type} (x : String × α) : List (String × α) → List (String × α)
  | [] => [x]
  | y :: rest =>
    if digitsToNat x.1.data < digitsToNat y.1.data then x :: y :: rest
    else y :: insertAsc x rest

/-- Insertion sort by ascending numeric key value. -/
def sortAsc {α : Type} : List (String × α) → List (String × α)
  | [] => []
  | x :: rest => insertAsc x (sortAsc rest)

/-- ES2015+ own-property enumeration order (`OrdinaryOwnPropertyKeys`), on
entries: array-index keys first in ascending numeric order, then the
remaining string keys in insertion order.  This is the order `Object.keys`
(and a `forEach` over it) visits a JS object's properties. -/
def jsEntries {α : Type} (fields : List (String × α)) : List (String × α) :=
  sortAsc ((dedupKeys fields).filter fun kv => isArrayIndexKey kv.1)
    ++ (dedupKeys fields).filter fun kv => !isArrayIndexKey kv.1

theorem insertAsc_perm {α : Type} (x : String × α) (L : List (String × α)) :
    (insertAsc x L).Perm (x :: L) := by
  induction L with
  | nil => exact List.Perm.refl _
  | cons y rest ih =>
    simp only [insertAsc]
    split
    · exact List.Perm.refl _
    · exact (List.Perm.cons y ih).trans (List.Perm.swap x y rest)

theorem sortAsc_perm {α : Type} (L : List (String × α)) : (sortAsc L).Perm L := by
  induction L with
  | nil => exact List.Perm.refl _
  | cons x rest ih =>
    exact (insertAsc_perm x (sortAsc rest)).trans (List.Perm.cons x ih)

theorem dedupKeys_sublist {α : Type} (L : List (String × α)) :
    (dedupKeys L).Sublist L := by
  induction L with
  | nil => exact List.Sublist.refl _
  | cons q rest ih =>
    obtain ⟨k, v⟩ := q
    exact List.Sublist.cons₂ (k, v) ((List.filter_sublist _).trans ih)

theorem sizeOf_sublist_le {α : Type} [SizeOf α] {l1 l2 : List α}
    (h : l1.Sublist l2) : sizeOf l1 ≤ sizeOf l2 := by
  induction h with
  | slnil => exact le_rfl
  | cons a h ih => simp only [List.cons.sizeOf_spec]; omega
  | cons₂ a h ih => simp only [List.cons.sizeOf_spec]; omega

theorem jsEntries_perm_dedup {α : Type} (L : List (String × α)) :
    (jsEntries L).Perm (dedupKeys L) := by
  unfold jsEntries
  exact ((sortAsc_perm _).append_right _).trans (List.filter_append_perm _ _)

theorem sizeOf_jsEntries_le {α : Type} [SizeOf α] (L : List (String × α)) :
    sizeOf (jsEntries L) ≤ sizeOf L := by
  have h1 : sizeOf (jsEntries L) = sizeOf (dedupKeys L) :=
    (jsEntries_perm_dedup L).sizeOf_eq_sizeOf
  have h2 : sizeOf (dedupKeys L) ≤ sizeOf L :=
    sizeOf_sublist_le (dedupKeys_sublist L)
  omega

theorem mem_of_mem_jsEntries {α : Type} {e : String × α} {L : List (String × α)}
    (h : e ∈ jsEntries L) : e ∈ L :=
  (dedupKeys_sublist L).subset ((jsEntries_perm_dedup L).mem_iff.mp h)

theorem dedupKeys_eq_self {α : Type} (L : List (String × α))
    (hnd : (L.map Prod.fst).Nodup) : dedupKeys L = L := by
  induction L with
  | nil => rfl
  | cons q rest ih =>
    obtain ⟨k, v⟩ := q
    rw [List.map_cons, List.nodup_cons] at hnd
    simp only [dedupKeys]
    rw [ih hnd.2]
    congr 1
    apply List.filter_eq_self.mpr
    intro kv hkv
    have hne : kv.1 ≠ k := by
      intro e
      have hmem : kv.1 ∈ rest.map Prod.fst := List.mem_map_of_mem Prod.fst hkv
      rw [e] at hmem
      exact hnd.1 hmem
    simpa using hne

theorem jsEntries_perm_self {α : Type} (L : List (String × α))
    (hnd : (L.map Prod.fst).Nodup) : (jsEntries L).Perm L := by
  have h := jsEntries_perm_dedup L
  rw [dedupKeys_eq_self L hnd] at h
  exact h

theorem jsEntries_eq_self {α : Type} (L : List (String × α))
    (hnd : (L.map Prod.fst).Nodup)
    (hni : ∀ kv ∈ L, isArrayIndexKey kv.1 = false) : jsEntries L = L := by
  unfold jsEntries
  rw [dedupKeys_eq_self L hnd]
  have h1 : (L.filter fun kv => isArrayIndexKey kv.1) = [] :=
    List.filter_eq_nil.mpr (fun a ha => by simp [hni a ha])
  have h2 : (L.filter fun kv => !isArrayIndexKey kv.1) = L :=
    List.filter_eq_self.mpr (fun a ha => by simp [hni a ha])
  rw [h1, h2]
  rfl

theorem isArrayIndexKey_false_of_isIndex_false (s : String)
    (h : isIndex s = false) : isArrayIndexKey s = false := by
  cases hr : reIsUint s.data with
  | false => simp [isArrayIndexKey, hr]
  | true =>
    have hbig : ¬digitsToNat s.data < 9007199254740991 := by
      intro hlt
      rw [isIndex, hr] at h
      simpa [hlt] using h
    have hsm : ¬digitsToNat s.data < 4294967295 := by omega
    simp [isArrayIndexKey, hsm]

mutual

/-- `reformatToMatchSchema(obj, schema)`: falsy values (including `null`
and `undefined`) return unchanged; an object under an `array` schema
flattens to an array over `Object.keys` in ES enumeration order
(`jsEntries` — each entry through `items` when present; the per-element
`if (schema.items)` of the source is hoisted out of the map, `schema` being
constant over it); an object under an `object` schema keeps only
schema-declared properties, the schema's keys visited in the same ES order;
an array under an `array` schema with `items` maps elementwise; anything
else returns unchanged. -/
def reformatToMatchSchema (v : JsValue) (schema : SimpleJSONSchema) : JsValue :=
  if jsFalsy v then v
  else
    match v with
    | JsValue.obj fields =>
      if schema.type = "array" then
        match h : schema.items with
        | some its =>
          JsValue.arr ((jsEntries fields).map fun kv => reformatToMatchSchema kv.2 its)
        | none => JsValue.arr ((jsEntries fields).map fun kv => kv.2)
      else if schema.type = "object" then
        JsValue.obj
          (match h : schema.properties with
           | some props => reformatProps fields (jsEntries props)
           | none => [])
      else v
    | JsValue.arr xs =>
      if schema.type = "array" then
        match h : schema.items with
        | some its => JsValue.arr (xs.map fun x => reformatToMatchSchema x its)
        | none => v
      else v
    | _ => v
termination_by sizeOf schema
decreasing_by
  · exact sizeOf_items_lt _ _ h
  · exact lt_of_le_of_lt (sizeOf_jsEntries_le props) (sizeOf_properties_lt _ _ h)
  · exact sizeOf_items_lt _ _ h

/-- The `Object.keys(schema.properties).forEach` loop of the object branch,
over the already-ordered schema entries: each property present on the
object (`obj[propName] !== undefined`, i.e. found and not `undef`) is
recursively reformatted; the rest are skipped. -/
def reformatProps (fields : List (String × JsValue)) :
    (props : List (String × SimpleJSONSchema)) → List (String × JsValue)
  | [] => []
  | (pn, psch) :: rest =>
    match lookupField fields pn with
    | some w =>
      cond w.isUndef (reformatProps fields rest)
        ((pn, reformatToMatchSchema w psch) :: reformatProps fields rest)
    | none => reformatProps fields rest
termination_by props => sizeOf props
decreasing_by
  all_goals simp
  all_goals omega

end

/-- One reported schema violation of the external Validator collaborator
(ajv in the source). -/
structure Violation where
  path : String
  message : String

/-- `validate(obj, schema)` with the external Validator abstracted as a
function returning its violation list: the ajv boolean is `violations = []`,
and a failure throws the fixed message `Result validation failed.` (the
violations themselves are only logged, not attached to the error). -/
def validate (validator : SimpleJSONSchema → JsValue → List Violation)
    (obj : JsValue) (schema : SimpleJSONSchema) : Except String Unit :=
  if (validator schema obj).isEmpty then Except.ok ()
  else Except.error "Result validation failed."

/-- `parse(content, schema)` after tokenization: assemble, normalize,
validate, return the normalized object. -/
def parse (validator : SimpleJSONSchema → JsValue → List Violation)
    (children : List MdNode) (schema : SimpleJSONSchema) :
    Except String JsValue :=
  match reduceAstToObject children schema with
  | Except.error e => Except.error e
  | Except.ok obj =>
    let result := reformatToMatchSchema obj schema
    match validate validator result schema with
    | Except.ok _ => Except.ok result
    | Except.error e => Except.error e

/-! ### Concrete fixtures used by the claims -/

/-- `{type: "string"}`. -/
def strSchema : SimpleJSONSchema := SimpleJSONSchema.mk "string" none none none

/-- mdast children of `"# Title\nfoo\n\n# Description\nbar\n"` (two level-1
headings, each followed by one paragraph). -/
def scenarioADoc : List MdNode :=
  [MdNode.heading 1 [MdNode.text "Title"], MdNode.paragraph [MdNode.text "foo"],
   MdNode.heading 1 [MdNode.text "Description"], MdNode.paragraph [MdNode.text "bar"]]

/-- `{type: "object", properties: {Title: string, Description: string}}`. -/
def scenarioASchema : SimpleJSONSchema :=
  SimpleJSONSchema.mk "object"
    (some [("Title", strSchema), ("Description", strSchema)]) none none

/-- `{type: "object", properties: {name: string}}`: the array-item schema of
the sibling-heading document family. -/
def nameItemSchema : SimpleJSONSchema :=
  SimpleJSONSchema.mk "object" (some [("name", strSchema)]) none none

/-- `{type: "array", items: nameItemSchema}`. -/
def arrItemsSchema : SimpleJSONSchema :=
  SimpleJSONSchema.mk "array" none none (some nameItemSchema)

/-- `{type: "object", properties: {items: arrItemsSchema}}`. -/
def topSchema : SimpleJSONSchema :=
  SimpleJSONSchema.mk "object" (some [("items", arrItemsSchema)]) none none

/-- One array-element section: a level-2 heading with an arbitrary label,
a level-3 `name` heading, and a paragraph of content. -/
def elemBlock (q : String × String) : List MdNode :=
  [MdNode.heading 2 [MdNode.text q.1], MdNode.heading 3 [MdNode.text "name"],
   MdNode.paragraph [MdNode.text q.2]]

/-- A document populating the array at path `items` with one section per
label/value pair, in list order. -/
def arrayDoc (pairs : List (String × String)) : List MdNode :=
  MdNode.heading 1 [MdNode.text "items"] :: (pairs.map elemBlock).flatten

/-- `{type: "object", properties: {Title: string}, required: ["Title"]}`
(concrete scenario D). -/
def scenarioDSchema : SimpleJSONSchema :=
  SimpleJSONSchema.mk "object" (some [("Title", strSchema)]) (some ["Title"]) none

/-! ### Claims -/

/-- Claim C1 (code bug): on the scenario-A document with schema properties
`Title`/`Description`, the `src/markdown-parser.ts` code lower-cases the
first character of the heading label before property lookup, so it looks up
`"title"`, finds nothing, and throws — both `parseToObject` and `parse`
fail — whereas the claim (and the repository's own test suite, which
matches capitalized headings against capitalized properties, as does the
`unnamed/part_001` variant embedded as `reduceAstToObjectV1`) expects
`{Title: "foo", Description: "bar"}`. -/
theorem c1_scenarioA_code_bug :
    reduceAstToObject scenarioADoc scenarioASchema
        = Except.error "Heading element title has no schema definition."
    ∧ parse (fun _ _ => []) scenarioADoc scenarioASchema
        = Except.error "Heading element title has no schema definition."
    ∧ reduceAstToObjectV1 scenarioADoc scenarioASchema
        = Except.ok (JsValue.obj
            [("Title", JsValue.str "foo"), ("Description", JsValue.str "bar")]) :=
  ⟨rfl, rfl, rfl⟩

/-- Claim C2: boolean extraction is the case-insensitive comparison of the
extracted text with the literal `"true"`: `"True"` yields `true`; `"false"`,
any non-`"true"` token, and the empty string yield `false` (so the result is
not the JS negation/emptiness test, which would be `true` on `""`). -/
theorem c2_boolean_true_comparison :
    (∀ (node : MdNode) (t : String), parseStringType node 0 false = Except.ok t →
        parseValue node "boolean" = Except.ok (JsValue.bool (jsToLowerCase t == "true")))
    ∧ parseValue (MdNode.text "True") "boolean" = Except.ok (JsValue.bool true)
    ∧ parseValue (MdNode.text "false") "boolean" = Except.ok (JsValue.bool false)
    ∧ parseValue (MdNode.text "maybe") "boolean" = Except.ok (JsValue.bool false)
    ∧ parseValue (MdNode.text "") "boolean" = Except.ok (JsValue.bool false) := by
  refine ⟨?_, rfl, rfl, rfl, rfl⟩
  intro node t h
  unfold parseValue
  rw [if_neg (by decide), if_neg (by decide), if_neg (by decide), if_pos rfl, h]

/-- Witness for C2 at the node `text "True"`. -/
theorem c2_witness :
    parseStringType (MdNode.text "True") 0 false = Except.ok "True"
    ∧ parseValue (MdNode.text "True") "boolean"
        = Except.ok (JsValue.bool (jsToLowerCase "True" == "true")) :=
  ⟨rfl, c2_boolean_true_comparison.1 (MdNode.text "True") "True" rfl⟩

/-- Claim C7: the `addValue` merge at a single path is associative on values
of one kind — strings merge with a blank-line separator, sequences by
concatenation — so any bracketing of the same linear order of content
blocks yields the same final value. -/
theorem c7_merge_assoc :
    (∀ a b c : String,
      (mergeValue (some (JsValue.str a)) (JsValue.str b)).bind
          (fun ab => mergeValue (some ab) (JsValue.str c))
        = (mergeValue (some (JsValue.str b)) (JsValue.str c)).bind
            (fun bc => mergeValue (some (JsValue.str a)) bc))
    ∧ (∀ xs ys zs : List JsValue,
      (mergeValue (some (JsValue.arr xs)) (JsValue.arr ys)).bind
          (fun m => mergeValue (some m) (JsValue.arr zs))
        = (mergeValue (some (JsValue.arr ys)) (JsValue.arr zs)).bind
            (fun m => mergeValue (some (JsValue.arr xs)) m)) := by
  constructor
  · intro a b c
    show Except.ok (JsValue.str (a ++ "\n\n" ++ b ++ "\n\n" ++ c))
        = Except.ok (JsValue.str (a ++ "\n\n" ++ (b ++ "\n\n" ++ c)))
    simp [String.append_assoc]
  · intro xs ys zs
    show Except.ok (JsValue.arr (xs ++ ys ++ zs))
        = Except.ok (JsValue.arr (xs ++ (ys ++ zs)))
    simp [List.append_assoc]

/-- Counterexample for C8 as stated: on the non-numeric text
`"not a number"`, number extraction succeeds with NaN instead of failing
with a NumericParseError — the code has no error path for `number`. -/
theorem c8_counterexample :
    parseValue (MdNode.text "not a number") "number"
      = Except.ok (JsValue.num JsNum.nan) := rfl

/-- Claim C8 (amended): number extraction converts the string-extracted text
with the JS `Number` conversion and always succeeds; non-numeric text yields
NaN (no error is raised). -/
theorem c8_number_returns_nan :
    (∀ (node : MdNode) (t : String), parseStringType node 0 false = Except.ok t →
        parseValue node "number" = Except.ok (JsValue.num (jsToNumber t)))
    ∧ jsToNumber "abc" = JsNum.nan
    ∧ jsToNumber "" = JsNum.val 0 := by
  refine ⟨?_, rfl, rfl⟩
  intro node t h
  unfold parseValue
  rw [if_neg (by decide), if_neg (by decide), if_pos rfl, h]

/-- Witness for C8 at the node `text "not numeric"`. -/
theorem c8_witness :
    parseStringType (MdNode.text "not numeric") 0 false = Except.ok "not numeric"
    ∧ parseValue (MdNode.text "not numeric") "number"
        = Except.ok (JsValue.num (jsToNumber "not numeric")) :=
  ⟨rfl, c8_number_returns_nan.1 (MdNode.text "not numeric") "not numeric" rfl⟩

/-- Counterexample for C9 as stated: two validators reporting different
violation lists produce the very same raised error value, so the error
cannot carry the violation list (the source logs the violations and throws
the fixed message `Result validation failed.`). -/
theorem c9_counterexample :
    parse (fun _ _ => [{ path := "", message := "must have required property Title" }])
        [] scenarioDSchema
      = Except.error "Result validation failed."
    ∧ parse (fun _ _ => [{ path := "", message := "a" }, { path := "", message := "b" }])
        [] scenarioDSchema
      = Except.error "Result validation failed." :=
  ⟨rfl, rfl⟩

/-- Claim C9 (amended): whenever assembly succeeds, `parse` raises the
validation error (fixed message, violations not carried) iff the external
Validator reports at least one violation on the normalized object, and
returns the normalized object otherwise. -/
theorem c9_validation_iff :
    ∀ (validator : SimpleJSONSchema → JsValue → List Violation)
      (children : List MdNode) (schema : SimpleJSONSchema) (obj : JsValue),
      reduceAstToObject children schema = Except.ok obj →
      (validator schema (reformatToMatchSchema obj schema) = [] →
          parse validator children schema
            = Except.ok (reformatToMatchSchema obj schema))
      ∧ (validator schema (reformatToMatchSchema obj schema) ≠ [] →
          parse validator children schema
            = Except.error "Result validation failed.") := by
  intro validator children schema obj h
  constructor
  · intro hv
    unfold parse validate
    rw [h]
    simp [hv]
  · intro hv
    unfold parse validate
    rw [h]
    simp [List.isEmpty_iff, hv]

/-- Witness for C9: the empty document against scenario D's schema with a
validator reporting nothing. -/
theorem c9_witness :
    reduceAstToObject [] scenarioDSchema = Except.ok (JsValue.obj [])
    ∧ parse (fun _ _ => []) [] scenarioDSchema
        = Except.ok (reformatToMatchSchema (JsValue.obj []) scenarioDSchema) :=
  ⟨rfl, (c9_validation_iff (fun _ _ => []) [] scenarioDSchema (JsValue.obj []) rfl).1 rfl⟩

/-- `parseValue` has no case for `type = "object"`, so it throws
`Unknown schema type object` for every node. -/
theorem parseValue_object_error (node : MdNode) :
    parseValue node "object" = Except.error "Unknown schema type object" := by
  unfold parseValue
  rw [if_neg (by decide), if_neg (by decide), if_neg (by decide),
    if_neg (by decide), if_neg (by decide)]
  rfl

/-- Claim C10: any non-heading content node met while the current schema
fragment is object-typed makes the pass throw `Unknown schema type object`
(value extraction has no `object` case); the content is neither ignored nor
attached to the result. -/
theorem c10_object_content_error :
    ∀ (ctx : ContextDto) (item : MdNode) (f : Frame),
      ctx.tree.head? = some f → f.schema.type = "object" →
      isHeadingNode item = false →
      reduceStep ctx item = Except.error "Unknown schema type object" := by
  intro ctx item f hHead hType hItem
  obtain ⟨tr, res⟩ := ctx
  cases tr with
  | nil => simp at hHead
  | cons g rest =>
    have hg : g = f := by simpa using hHead
    subst hg
    cases item <;>
      first
        | (simp [isHeadingNode] at hItem; done)
        | (simp only [reduceStep]
           rw [hType, parseValue_object_error])

/-- Witness for C10: a paragraph at the top of a document whose root schema
is an object. -/
theorem c10_witness :
    reduceStep (initCtx scenarioASchema) (MdNode.paragraph [MdNode.text "stray"])
      = Except.error "Unknown schema type object" :=
  c10_object_content_error (initCtx scenarioASchema)
    (MdNode.paragraph [MdNode.text "stray"])
    { path := "root", schema := scenarioASchema, depth := 0 } rfl rfl rfl

/-- A context whose current fragment (path `["features"]`) has neither
properties nor items. -/
def c3CtxA : ContextDto :=
  { tree := [{ path := "features", schema := SimpleJSONSchema.mk "object" none none none,
               depth := 1 },
             { path := "root", schema := scenarioASchema, depth := 0 }],
    result := JsValue.obj [("features", JsValue.null)] }

/-- Like `c3CtxA` but with current path `["bananas"]`. -/
def c3CtxB : ContextDto :=
  { tree := [{ path := "bananas", schema := SimpleJSONSchema.mk "object" none none none,
               depth := 1 },
             { path := "root", schema := scenarioASchema, depth := 0 }],
    result := JsValue.obj [("bananas", JsValue.null)] }

/-- A root context whose schema has both a matching property `a` and an
`items` fragment. -/
def c3CtxBoth : ContextDto :=
  { tree := [{ path := "root",
               schema := SimpleJSONSchema.mk "object" (some [("a", strSchema)]) none
                 (some nameItemSchema),
               depth := 0 }],
    result := JsValue.obj [] }

/-- Counterexample for C3 as stated: when neither a property nor an items
fragment matches, the thrown error is
`Heading element <label> has no schema definition.` — it names the label but
is identical for two contexts with different current paths (`["features"]`
vs `["bananas"]`), so it does not name the current path. -/
theorem c3_counterexample :
    reduceStep c3CtxA (MdNode.heading 2 [MdNode.text "Foo"])
      = Except.error "Heading element foo has no schema definition."
    ∧ reduceStep c3CtxB (MdNode.heading 2 [MdNode.text "Foo"])
      = Except.error "Heading element foo has no schema definition." :=
  ⟨rfl, rfl⟩

/-- Unfolding of `reduceStep` on a heading once the label text is known. -/
theorem reduceStep_heading (ctx : ContextDto) (d : Nat) (children : List MdNode)
    (nm : String) (h : parseChildValue children false = Except.ok nm) :
    reduceStep ctx (MdNode.heading d children)
      = (match getPropertySchema (popToDepth d ctx.tree) (lowerCaseFirst nm) with
         | some ps =>
           Except.ok (addProperty { tree := popToDepth d ctx.tree, result := ctx.result }
             (lowerCaseFirst nm) d ps)
         | none =>
           match popToDepth d ctx.tree with
           | [] => Except.error "TypeError"
           | f :: _ =>
             match f.schema.items with
             | some its =>
               Except.ok (addProperty { tree := popToDepth d ctx.tree, result := ctx.result }
                 (lowerCaseFirst nm) d its)
             | none =>
               Except.error ("Heading element " ++ lowerCaseFirst nm
                 ++ " has no schema definition.")) := by
  simp only [reduceStep]
  rw [h]

/-- Unfolding of a heading step once label, failed property lookup and the
popped stack shape are known. -/
theorem reduceStep_heading_noprop (ctx : ContextDto) (d : Nat)
    (children : List MdNode) (nm : String) (f : Frame) (rest : List Frame)
    (h : parseChildValue children false = Except.ok nm)
    (ht : popToDepth d ctx.tree = f :: rest)
    (hnone : getPropertySchema (popToDepth d ctx.tree) (lowerCaseFirst nm) = none) :
    reduceStep ctx (MdNode.heading d children)
      = (match f.schema.items with
         | some its =>
           Except.ok (addProperty { tree := f :: rest, result := ctx.result }
             (lowerCaseFirst nm) d its)
         | none =>
           Except.error ("Heading element " ++ lowerCaseFirst nm
             ++ " has no schema definition.")) := by
  rw [reduceStep_heading ctx d children nm h, hnone, ht]

/-- Claim C3 (amended): heading resolution after the pop — a declared
property matching the normalized label always wins (the pushed frame carries
the property's fragment, even when an items fragment also exists); the items
fragment is used only when no property matches; if neither exists the step
fails with an error naming the offending label (but not the current path). -/
theorem c3_precedence :
    ∀ (ctx : ContextDto) (d : Nat) (children : List MdNode) (nm : String),
      parseChildValue children false = Except.ok nm →
      (∀ ps, getPropertySchema (popToDepth d ctx.tree) (lowerCaseFirst nm) = some ps →
          reduceStep ctx (MdNode.heading d children)
            = Except.ok (addProperty { tree := popToDepth d ctx.tree, result := ctx.result }
                (lowerCaseFirst nm) d ps)
          ∧ ∀ ctx', reduceStep ctx (MdNode.heading d children) = Except.ok ctx' →
              ctx'.tree.head? = some { path := lowerCaseFirst nm, schema := ps, depth := d })
      ∧ (∀ f rest, popToDepth d ctx.tree = f :: rest →
          getPropertySchema (popToDepth d ctx.tree) (lowerCaseFirst nm) = none →
          (∀ its, f.schema.items = some its →
              reduceStep ctx (MdNode.heading d children)
                = Except.ok (addProperty { tree := popToDepth d ctx.tree, result := ctx.result }
                    (lowerCaseFirst nm) d its))
          ∧ (f.schema.items = none →
              reduceStep ctx (MdNode.heading d children)
                = Except.error ("Heading element " ++ lowerCaseFirst nm
                    ++ " has no schema definition."))) := by
  intro ctx d children nm h
  constructor
  · intro ps hps
    have hstep : reduceStep ctx (MdNode.heading d children)
        = Except.ok (addProperty { tree := popToDepth d ctx.tree, result := ctx.result }
            (lowerCaseFirst nm) d ps) := by
      rw [reduceStep_heading ctx d children nm h, hps]
    refine ⟨hstep, ?_⟩
    intro ctx' h'
    rw [hstep] at h'
    cases h'
    rfl
  · intro f rest ht hnone
    constructor
    · intro its hits
      rw [reduceStep_heading_noprop ctx d children nm f rest h ht hnone, hits, ht]
    · intro hnoItems
      rw [reduceStep_heading_noprop ctx d children nm f rest h ht hnone, hnoItems]

/-- Witness for C3: with both a matching property and an items fragment
present, the property's fragment is pushed. -/
theorem c3_witness :
    reduceStep c3CtxBoth (MdNode.heading 1 [MdNode.text "a"])
      = Except.ok (addProperty
          { tree := popToDepth 1 c3CtxBoth.tree, result := c3CtxBoth.result }
          (lowerCaseFirst "a") 1 strSchema) :=
  ((c3_precedence c3CtxBoth 1 [MdNode.text "a"] "a" rfl).1 strSchema rfl).1

/-! ### C4: the context-stack invariant -/

/-- The stack's heading-depth sequence, top of stack first. -/
def depthsOf (t : List Frame) : List Nat := t.map Frame.depth

/-- The C4 invariant: heading depths are strictly increasing from the root
frame (the last element, depth 0) towards the top (the head). -/
def StackInv (t : List Frame) : Prop :=
  List.Chain' (fun a b => b < a) (depthsOf t) ∧ (depthsOf t).getLast? = some 0

/-- `headingDepthOkB item`: a heading's level is at least 1 (mdast levels
are 1..6); trivially true for non-headings. -/
def headingDepthOkB : MdNode → Bool
  | MdNode.heading d _ => decide (1 ≤ d)
  | _ => true

/-- All top-level items have valid heading levels. -/
def depthsValid (items : List MdNode) : Prop :=
  ∀ item ∈ items, headingDepthOkB item = true

theorem popToDepth_suffix (d : Nat) (t : List Frame) : popToDepth d t <:+ t := by
  induction t with
  | nil => exact List.suffix_refl []
  | cons f rest ih =>
    simp only [popToDepth]
    split
    · exact ih.trans (List.suffix_cons f rest)
    · exact List.suffix_refl _

theorem chain'_of_suffix {l l' : List Nat}
    (h : List.Chain' (fun a b => b < a) l) (hs : l' <:+ l) :
    List.Chain' (fun a b => b < a) l' := by
  obtain ⟨pre, rfl⟩ := hs
  exact (List.chain'_append.mp h).2.1

theorem depthsOf_getLast? (t : List Frame) :
    (depthsOf t).getLast? = t.getLast?.map Frame.depth := by
  induction t with
  | nil => rfl
  | cons f rest ih =>
    cases rest with
    | nil => rfl
    | cons g rs =>
      simpa [depthsOf, List.getLast?_cons_cons] using ih

theorem popToDepth_getLast?_eq (d : Nat) (hd : 1 ≤ d) :
    ∀ t : List Frame, (depthsOf t).getLast? = some 0 →
      (popToDepth d t).getLast? = t.getLast? := by
  intro t
  induction t with
  | nil => intro h; simp [depthsOf] at h
  | cons f rest ih =>
    intro h
    simp only [popToDepth]
    split
    · rename_i hle
      cases rest with
      | nil =>
        simp [depthsOf] at h
        omega
      | cons g rs =>
        have h' : (depthsOf (g :: rs)).getLast? = some 0 := by
          simpa [depthsOf, List.getLast?_cons_cons] using h
        rw [ih h']
        simp [List.getLast?_cons_cons]
    · rfl

theorem popToDepth_head_lt (d : Nat) :
    ∀ (t : List Frame) (f : Frame), (popToDepth d t).head? = some f → f.depth < d := by
  intro t
  induction t with
  | nil => intro f h; simp [popToDepth] at h
  | cons g rest ih =>
    intro f h
    simp only [popToDepth] at h
    split at h
    · exact ih f h
    · rename_i hgt
      simp at h
      subst h
      omega

/-- Popping preserves the invariant and never removes the root frame. -/
theorem stackInv_pop (d : Nat) (t : List Frame) (hinv : StackInv t) (hd : 1 ≤ d) :
    StackInv (popToDepth d t) ∧ (popToDepth d t).getLast? = t.getLast? := by
  obtain ⟨hch, hlast⟩ := hinv
  have hl := popToDepth_getLast?_eq d hd t hlast
  refine ⟨⟨?_, ?_⟩, hl⟩
  · exact chain'_of_suffix hch ((popToDepth_suffix d t).map Frame.depth)
  · rw [depthsOf_getLast?, hl, ← depthsOf_getLast?, hlast]

/-- Pushing a frame whose depth exceeds the top frame's depth re-establishes
the invariant. -/
theorem stackInv_push (t : List Frame) (nm : String) (sch : SimpleJSONSchema)
    (L : Nat) (hinv : StackInv t) (hhead : ∀ f, t.head? = some f → f.depth < L) :
    StackInv ({ path := nm, schema := sch, depth := L } :: t) := by
  obtain ⟨hch, hlast⟩ := hinv
  have hne : t ≠ [] := by
    intro h
    subst h
    simp [depthsOf] at hlast
  constructor
  · show List.Chain' (fun a b => b < a) (L :: depthsOf t)
    rw [List.chain'_cons']
    refine ⟨?_, hch⟩
    intro y hy
    cases t with
    | nil => exact absurd rfl hne
    | cons f rest =>
      simp [depthsOf] at hy
      subst hy
      exact hhead f rfl
  · cases t with
    | nil => exact absurd rfl hne
    | cons f rest =>
      show (L :: depthsOf (f :: rest)).getLast? = some 0
      simpa [depthsOf, List.getLast?_cons_cons] using hlast

/-- A successful heading step yields a stack of the form
`new frame at the heading's depth :: popped stack`. -/
theorem reduceStep_heading_ok_tree (ctx ctx' : ContextDto) (d : Nat)
    (cs : List MdNode) (h : reduceStep ctx (MdNode.heading d cs) = Except.ok ctx') :
    ∃ nm sch, ctx'.tree
      = { path := nm, schema := sch, depth := d } :: popToDepth d ctx.tree := by
  cases hp : parseChildValue cs false with
  | error e =>
    simp only [reduceStep] at h
    rw [hp] at h
    simp at h
  | ok nm =>
    cases hq : getPropertySchema (popToDepth d ctx.tree) (lowerCaseFirst nm) with
    | some ps =>
      rw [reduceStep_heading ctx d cs nm hp, hq] at h
      refine ⟨lowerCaseFirst nm, ps, ?_⟩
      cases h
      rfl
    | none =>
      cases ht : popToDepth d ctx.tree with
      | nil =>
        rw [reduceStep_heading ctx d cs nm hp, hq, ht] at h
        simp at h
      | cons f rest =>
        rw [reduceStep_heading_noprop ctx d cs nm f rest hp ht hq] at h
        cases hi : f.schema.items with
        | some its =>
          rw [hi] at h
          refine ⟨lowerCaseFirst nm, its, ?_⟩
          cases h
          rfl
        | none => rw [hi] at h; simp at h

/-- `reduceStep` on a non-heading node, unfolded. -/
theorem reduceStep_default (ctx : ContextDto) (item : MdNode)
    (hnh : isHeadingNode item = false) :
    reduceStep ctx item
      = (match ctx.tree with
         | [] => Except.error "TypeError"
         | f :: _ =>
           match parseValue item f.schema.type with
           | Except.ok v => addValue ctx v
           | Except.error e => Except.error e) := by
  cases item <;> first | (simp [isHeadingNode] at hnh; done) | rfl

/-- `reduceStep` on a non-heading node with a non-empty stack. -/
theorem reduceStep_default_cons (ctx : ContextDto) (item : MdNode) (f : Frame)
    (rest : List Frame) (hnh : isHeadingNode item = false)
    (htr : ctx.tree = f :: rest) :
    reduceStep ctx item
      = (match parseValue item f.schema.type with
         | Except.ok v => addValue ctx v
         | Except.error e => Except.error e) := by
  rw [reduceStep_default ctx item hnh, htr]

theorem addValue_ok_tree (ctx ctx' : ContextDto) (v : JsValue)
    (h : addValue ctx v = Except.ok ctx') : ctx'.tree = ctx.tree := by
  simp only [addValue] at h
  cases hm : mergeValue (getPath ctx.result (getPropertyPath ctx.tree)) v with
  | ok nv => rw [hm] at h; cases h; rfl
  | error e => rw [hm] at h; simp at h

/-- A successful non-heading step leaves the stack unchanged. -/
theorem reduceStep_nonheading_tree (ctx ctx' : ContextDto) (item : MdNode)
    (hnh : isHeadingNode item = false)
    (h : reduceStep ctx item = Except.ok ctx') : ctx'.tree = ctx.tree := by
  cases htr : ctx.tree with
  | nil =>
    rw [reduceStep_default ctx item hnh, htr] at h
    simp at h
  | cons f rest =>
    rw [reduceStep_default_cons ctx item f rest hnh htr] at h
    cases hpv : parseValue item f.schema.type with
    | ok v =>
      rw [hpv] at h
      rw [addValue_ok_tree ctx ctx' v h]
      exact htr
    | error e => rw [hpv] at h; simp at h

theorem isHeadingNode_eq (item : MdNode) (hh : isHeadingNode item = true) :
    ∃ d cs, item = MdNode.heading d cs := by
  cases item <;> first | exact ⟨_, _, rfl⟩ | simp [isHeadingNode] at hh

/-- One successful step preserves the invariant. -/
theorem stackInv_step (ctx ctx' : ContextDto) (item : MdNode)
    (hinv : StackInv ctx.tree) (hok : headingDepthOkB item = true)
    (h : reduceStep ctx item = Except.ok ctx') : StackInv ctx'.tree := by
  cases hh : isHeadingNode item with
  | false => rw [reduceStep_nonheading_tree ctx ctx' item hh h]; exact hinv
  | true =>
    obtain ⟨d, cs, rfl⟩ := isHeadingNode_eq item hh
    obtain ⟨nm, sch, htree⟩ := reduceStep_heading_ok_tree ctx ctx' d cs h
    have hd : 1 ≤ d := by simpa [headingDepthOkB] using hok
    rw [htree]
    exact stackInv_push _ nm sch d (stackInv_pop d ctx.tree hinv hd).1
      (fun f hf => popToDepth_head_lt d ctx.tree f hf)

/-- The whole pass preserves the invariant. -/
theorem stackInv_fold :
    ∀ (items : List MdNode) (ctx ctx' : ContextDto), depthsValid items →
      StackInv ctx.tree → reduceAst ctx items = Except.ok ctx' →
      StackInv ctx'.tree := by
  intro items
  induction items with
  | nil =>
    intro ctx ctx' _ hinv h
    cases h
    exact hinv
  | cons item rest ih =>
    intro ctx ctx' hdv hinv h
    simp only [reduceAst] at h
    cases hs : reduceStep ctx item with
    | error e => rw [hs] at h; simp at h
    | ok c =>
      rw [hs] at h
      exact ih c ctx' (fun i hi => hdv i (List.mem_cons_of_mem _ hi))
        (stackInv_step ctx c item hinv (hdv item (List.mem_cons_self _ _)) hs) h

/-- Claim C4: the context stack always satisfies the strictly-increasing
heading-level invariant with the root frame (level 0) at the bottom.
Part 1: for a heading level `L ≥ 1`, popping while the top's level is `≥ L`
preserves the invariant, never removes the root frame, leaves every possible
new top frame at level `< L`, and pushing the new frame at level `L`
re-establishes the invariant.  Part 2: every successful step preserves the
invariant.  Part 3: so does the whole pass, hence it holds at every point. -/
theorem c4_stack_invariant :
    (∀ (ctx : ContextDto) (L : Nat), StackInv ctx.tree → 1 ≤ L →
        StackInv (popToDepth L ctx.tree)
        ∧ (popToDepth L ctx.tree).getLast? = ctx.tree.getLast?
        ∧ (∀ f, (popToDepth L ctx.tree).head? = some f → f.depth < L)
        ∧ (∀ nm sch, StackInv
            ({ path := nm, schema := sch, depth := L } :: popToDepth L ctx.tree)))
    ∧ (∀ (ctx ctx' : ContextDto) (item : MdNode), StackInv ctx.tree →
        headingDepthOkB item = true → reduceStep ctx item = Except.ok ctx' →
        StackInv ctx'.tree)
    ∧ (∀ (items : List MdNode) (ctx ctx' : ContextDto), depthsValid items →
        StackInv ctx.tree → reduceAst ctx items = Except.ok ctx' →
        StackInv ctx'.tree) := by
  refine ⟨?_, ?_, ?_⟩
  · intro ctx L hinv hL
    obtain ⟨hpop, hlast⟩ := stackInv_pop L ctx.tree hinv hL
    exact ⟨hpop, hlast, fun f hf => popToDepth_head_lt L ctx.tree f hf,
      fun nm sch => stackInv_push _ nm sch L hpop
        (fun f hf => popToDepth_head_lt L ctx.tree f hf)⟩
  · intro ctx ctx' item hinv hok h
    exact stackInv_step ctx ctx' item hinv hok h
  · intro items ctx ctx' hdv hinv h
    exact stackInv_fold items ctx ctx' hdv hinv h

/-- Witness for C4 at the initial context and heading level 1. -/
theorem c4_witness :
    StackInv (popToDepth 1 (initCtx scenarioASchema).tree)
    ∧ (popToDepth 1 (initCtx scenarioASchema).tree).getLast?
        = (initCtx scenarioASchema).tree.getLast? :=
  ⟨(c4_stack_invariant.1 (initCtx scenarioASchema) 1
      ⟨by simp [depthsOf, initCtx], by simp [depthsOf, initCtx]⟩ (by decide)).1,
   (c4_stack_invariant.1 (initCtx scenarioASchema) 1
      ⟨by simp [depthsOf, initCtx], by simp [depthsOf, initCtx]⟩ (by decide)).2.1⟩

/-! ### C6: idempotence of the normalizer -/

/-- Well-formedness of a schema fragment as it exists in JS: property names
are unique at every level (JS object keys cannot repeat), recursively. -/
inductive SchemaWF : SimpleJSONSchema → Prop where
  | intro (t : String) (props : Option (List (String × SimpleJSONSchema)))
      (req : Option (List String)) (items : Option SimpleJSONSchema)
      (hnodup : ∀ ps, props = some ps → (ps.map Prod.fst).Nodup)
      (hprops : ∀ ps, props = some ps → ∀ kv ∈ ps, SchemaWF kv.2)
      (hitems : ∀ its, items = some its → SchemaWF its) :
      SchemaWF (SimpleJSONSchema.mk t props req items)

theorem SchemaWF.props_of (s : SimpleJSONSchema)
    (ps : List (String × SimpleJSONSchema)) (h : SchemaWF s)
    (hp : s.properties = some ps) :
    (ps.map Prod.fst).Nodup ∧ ∀ kv ∈ ps, SchemaWF kv.2 := by
  cases h with
  | intro t props req items hnodup hprops hitems =>
    exact ⟨hnodup ps hp, hprops ps hp⟩

theorem SchemaWF.items_of (s its : SimpleJSONSchema) (h : SchemaWF s)
    (hi : s.items = some its) : SchemaWF its := by
  cases h with
  | intro t props req items hnodup hprops hitems => exact hitems its hi

/-- Whether a value is an object. -/
def isObjValue : JsValue → Bool
  | JsValue.obj _ => true
  | _ => false

/-- Whether a value is an array. -/
def isArrValue : JsValue → Bool
  | JsValue.arr _ => true
  | _ => false

theorem reformat_falsy (v : JsValue) (s : SimpleJSONSchema)
    (h : jsFalsy v = true) : reformatToMatchSchema v s = v := by
  conv_lhs => rw [reformatToMatchSchema.eq_def]
  simp [h]

theorem reformat_prim (v : JsValue) (s : SimpleJSONSchema)
    (h1 : isObjValue v = false) (h2 : isArrValue v = false) :
    reformatToMatchSchema v s = v := by
  cases v <;>
    first
      | (simp [isObjValue] at h1; done)
      | (simp [isArrValue] at h2; done)
      | (conv_lhs => rw [reformatToMatchSchema.eq_def]
         split <;> rfl)

theorem reformat_obj_array (fields : List (String × JsValue))
    (s its : SimpleJSONSchema) (hty : s.type = "array") (hit : s.items = some its) :
    reformatToMatchSchema (JsValue.obj fields) s
      = JsValue.arr ((jsEntries fields).map fun kv => reformatToMatchSchema kv.2 its) := by
  conv_lhs => rw [reformatToMatchSchema.eq_def]
  simp [jsFalsy, hty]
  split
  · rename_i its2 heq
    rw [hit] at heq
    cases heq
    rfl
  · rename_i heq
    rw [hit] at heq
    exact Option.noConfusion heq

theorem reformat_obj_array_noitems (fields : List (String × JsValue))
    (s : SimpleJSONSchema) (hty : s.type = "array") (hit : s.items = none) :
    reformatToMatchSchema (JsValue.obj fields) s
      = JsValue.arr ((jsEntries fields).map fun kv => kv.2) := by
  conv_lhs => rw [reformatToMatchSchema.eq_def]
  simp [jsFalsy, hty]
  split
  · rename_i its2 heq
    rw [hit] at heq
    exact Option.noConfusion heq
  · rfl

theorem reformat_obj_object (fields : List (String × JsValue))
    (s : SimpleJSONSchema) (props : List (String × SimpleJSONSchema))
    (hty : s.type = "object") (hpr : s.properties = some props) :
    reformatToMatchSchema (JsValue.obj fields) s
      = JsValue.obj (reformatProps fields (jsEntries props)) := by
  conv_lhs => rw [reformatToMatchSchema.eq_def]
  simp [jsFalsy, hty]
  split
  · rename_i props2 heq
    rw [hpr] at heq
    cases heq
    rfl
  · rename_i heq
    rw [hpr] at heq
    exact Option.noConfusion heq

theorem reformat_obj_object_noprops (fields : List (String × JsValue))
    (s : SimpleJSONSchema) (hty : s.type = "object") (hpr : s.properties = none) :
    reformatToMatchSchema (JsValue.obj fields) s = JsValue.obj [] := by
  conv_lhs => rw [reformatToMatchSchema.eq_def]
  simp [jsFalsy, hty]
  split
  · rename_i props2 heq
    rw [hpr] at heq
    exact Option.noConfusion heq
  · rfl

theorem reformat_obj_other (fields : List (String × JsValue))
    (s : SimpleJSONSchema) (h1 : ¬s.type = "array") (h2 : ¬s.type = "object") :
    reformatToMatchSchema (JsValue.obj fields) s = JsValue.obj fields := by
  conv_lhs => rw [reformatToMatchSchema.eq_def]
  simp [jsFalsy, h1, h2]

theorem reformat_arr_array (xs : List JsValue) (s its : SimpleJSONSchema)
    (hty : s.type = "array") (hit : s.items = some its) :
    reformatToMatchSchema (JsValue.arr xs) s
      = JsValue.arr (xs.map fun x => reformatToMatchSchema x its) := by
  conv_lhs => rw [reformatToMatchSchema.eq_def]
  simp [jsFalsy, hty]
  split
  · rename_i its2 heq
    rw [hit] at heq
    cases heq
    rfl
  · rename_i heq
    rw [hit] at heq
    exact Option.noConfusion heq

theorem reformat_arr_array_noitems (xs : List JsValue) (s : SimpleJSONSchema)
    (hty : s.type = "array") (hit : s.items = none) :
    reformatToMatchSchema (JsValue.arr xs) s = JsValue.arr xs := by
  conv_lhs => rw [reformatToMatchSchema.eq_def]
  simp [jsFalsy, hty]
  split
  · rename_i its2 heq
    rw [hit] at heq
    exact Option.noConfusion heq
  · rfl

theorem reformat_arr_other (xs : List JsValue) (s : SimpleJSONSchema)
    (hty : ¬s.type = "array") :
    reformatToMatchSchema (JsValue.arr xs) s = JsValue.arr xs := by
  conv_lhs => rw [reformatToMatchSchema.eq_def]
  simp [jsFalsy, hty]

theorem lookupField_cons_ne {α : Type} (k pn : String) (x : α)
    (L : List (String × α)) (h : ¬k = pn) :
    lookupField ((k, x) :: L) pn = lookupField L pn := by
  simp [lookupField, h]

theorem lookupField_cons_eq {α : Type} (k : String) (x : α)
    (L : List (String × α)) :
    lookupField ((k, x) :: L) k = some x := by
  simp [lookupField]

theorem reformatProps_nil (fields : List (String × JsValue)) :
    reformatProps fields [] = [] :=
  reformatProps.eq_1 fields

theorem reformatProps_cons (fields : List (String × JsValue)) (qn : String)
    (qsch : SimpleJSONSchema) (rest : List (String × SimpleJSONSchema)) :
    reformatProps fields ((qn, qsch) :: rest)
      = (match lookupField fields qn with
         | some w =>
           cond w.isUndef (reformatProps fields rest)
             ((qn, reformatToMatchSchema w qsch) :: reformatProps fields rest)
         | none => reformatProps fields rest) :=
  reformatProps.eq_2 fields qn qsch rest

theorem reformatProps_cons_found (fields : List (String × JsValue)) (qn : String)
    (qsch : SimpleJSONSchema) (rest : List (String × SimpleJSONSchema))
    (w : JsValue) (hl : lookupField fields qn = some w) :
    reformatProps fields ((qn, qsch) :: rest)
      = cond w.isUndef (reformatProps fields rest)
          ((qn, reformatToMatchSchema w qsch) :: reformatProps fields rest) := by
  rw [reformatProps_cons, hl]

theorem reformatProps_cons_missing (fields : List (String × JsValue)) (qn : String)
    (qsch : SimpleJSONSchema) (rest : List (String × SimpleJSONSchema))
    (hl : lookupField fields qn = none) :
    reformatProps fields ((qn, qsch) :: rest) = reformatProps fields rest := by
  rw [reformatProps_cons, hl]

theorem reformatProps_cons_found_ok (fields : List (String × JsValue)) (qn : String)
    (qsch : SimpleJSONSchema) (rest : List (String × SimpleJSONSchema))
    (w : JsValue) (hl : lookupField fields qn = some w) (hw : w.isUndef = false) :
    reformatProps fields ((qn, qsch) :: rest)
      = (qn, reformatToMatchSchema w qsch) :: reformatProps fields rest := by
  rw [reformatProps_cons_found fields qn qsch rest w hl, hw, cond_false]

theorem reformatProps_cons_found_undef (fields : List (String × JsValue)) (qn : String)
    (qsch : SimpleJSONSchema) (rest : List (String × SimpleJSONSchema))
    (w : JsValue) (hl : lookupField fields qn = some w) (hw : w.isUndef = true) :
    reformatProps fields ((qn, qsch) :: rest) = reformatProps fields rest := by
  rw [reformatProps_cons_found fields qn qsch rest w hl, hw, cond_true]

theorem lookupField_reformatProps_notmem (fields : List (String × JsValue))
    (props : List (String × SimpleJSONSchema)) (pn : String)
    (h : pn ∉ props.map Prod.fst) :
    lookupField (reformatProps fields props) pn = none := by
  induction props with
  | nil => rw [reformatProps_nil]; rfl
  | cons q rest ih =>
    obtain ⟨qn, qsch⟩ := q
    have hne : ¬qn = pn := by
      intro e
      exact h (by rw [← e]; exact List.mem_cons_self _ _)
    have h2 : pn ∉ rest.map Prod.fst := fun m => h (List.mem_cons_of_mem _ m)
    cases hl : lookupField fields qn with
    | some w =>
      cases hw : w.isUndef with
      | true =>
        rw [reformatProps_cons_found_undef fields qn qsch rest w hl hw]
        exact ih h2
      | false =>
        rw [reformatProps_cons_found_ok fields qn qsch rest w hl hw,
          lookupField_cons_ne qn pn _ _ hne]
        exact ih h2
    | none =>
      rw [reformatProps_cons_missing fields qn qsch rest hl]
      exact ih h2

theorem lookupField_reformatProps_some (fields : List (String × JsValue))
    (props : List (String × SimpleJSONSchema)) (pn : String)
    (psch : SimpleJSONSchema) (w : JsValue) (hnd : (props.map Prod.fst).Nodup)
    (hmem : (pn, psch) ∈ props) (hl : lookupField fields pn = some w)
    (hw : w.isUndef = false) :
    lookupField (reformatProps fields props) pn
      = some (reformatToMatchSchema w psch) := by
  induction props with
  | nil => simp at hmem
  | cons q rest ih =>
    obtain ⟨qn, qsch⟩ := q
    rw [List.map_cons, List.nodup_cons] at hnd
    rcases List.mem_cons.mp hmem with heq | hmem2
    · cases heq
      rw [reformatProps_cons_found_ok fields pn psch rest w hl hw,
        lookupField_cons_eq]
    · have hpn : pn ∈ rest.map Prod.fst := List.mem_map_of_mem Prod.fst hmem2
      have hne : ¬qn = pn := fun e => hnd.1 (e ▸ hpn)
      cases hlq : lookupField fields qn with
      | some w2 =>
        cases hw2 : w2.isUndef with
        | true =>
          rw [reformatProps_cons_found_undef fields qn qsch rest w2 hlq hw2]
          exact ih hnd.2 hmem2
        | false =>
          rw [reformatProps_cons_found_ok fields qn qsch rest w2 hlq hw2,
            lookupField_cons_ne qn pn _ _ hne]
          exact ih hnd.2 hmem2
      | none =>
        rw [reformatProps_cons_missing fields qn qsch rest hlq]
        exact ih hnd.2 hmem2

theorem lookupField_reformatProps_nofield (fields : List (String × JsValue))
    (props : List (String × SimpleJSONSchema)) (pn : String)
    (hl : lookupField fields pn = none) :
    lookupField (reformatProps fields props) pn = none := by
  induction props with
  | nil => rw [reformatProps_nil]; rfl
  | cons q rest ih =>
    obtain ⟨qn, qsch⟩ := q
    by_cases he : qn = pn
    · subst he
      rw [reformatProps_cons_missing fields qn qsch rest hl]
      exact ih
    · cases hlq : lookupField fields qn with
      | some w2 =>
        cases hw2 : w2.isUndef with
        | true =>
          rw [reformatProps_cons_found_undef fields qn qsch rest w2 hlq hw2]
          exact ih
        | false =>
          rw [reformatProps_cons_found_ok fields qn qsch rest w2 hlq hw2,
            lookupField_cons_ne qn pn _ _ he]
          exact ih
      | none =>
        rw [reformatProps_cons_missing fields qn qsch rest hlq]
        exact ih

theorem lookupField_reformatProps_undef (fields : List (String × JsValue))
    (props : List (String × SimpleJSONSchema)) (pn : String)
    (w : JsValue) (hnd : (props.map Prod.fst).Nodup)
    (hl : lookupField fields pn = some w) (hw : w.isUndef = true) :
    lookupField (reformatProps fields props) pn = none := by
  induction props with
  | nil => rw [reformatProps_nil]; rfl
  | cons q rest ih =>
    obtain ⟨qn, qsch⟩ := q
    rw [List.map_cons, List.nodup_cons] at hnd
    by_cases he : qn = pn
    · subst he
      rw [reformatProps_cons_found_undef fields qn qsch rest w hl hw]
      exact lookupField_reformatProps_notmem fields rest qn hnd.1
    · cases hlq : lookupField fields qn with
      | some w2 =>
        cases hw2 : w2.isUndef with
        | true =>
          rw [reformatProps_cons_found_undef fields qn qsch rest w2 hlq hw2]
          exact ih hnd.2
        | false =>
          rw [reformatProps_cons_found_ok fields qn qsch rest w2 hlq hw2,
            lookupField_cons_ne qn pn _ _ he]
          exact ih hnd.2
      | none =>
        rw [reformatProps_cons_missing fields qn qsch rest hlq]
        exact ih hnd.2

/-- The normalizer never produces the `undefined` value from a defined
value: every branch returns the input or an `arr`/`obj` constructor. -/
theorem reformat_not_undef (v : JsValue) (s : SimpleJSONSchema)
    (h : v.isUndef = false) : (reformatToMatchSchema v s).isUndef = false := by
  by_cases hf : jsFalsy v = true
  · rw [reformat_falsy v s hf]; exact h
  · cases v with
    | undef => simp [jsFalsy] at hf
    | null => simp [jsFalsy] at hf
    | str sv => rw [reformat_prim (JsValue.str sv) s rfl rfl]; exact h
    | num nv => rw [reformat_prim (JsValue.num nv) s rfl rfl]; exact h
    | bool bv => rw [reformat_prim (JsValue.bool bv) s rfl rfl]; exact h
    | obj fields =>
      by_cases hty : s.type = "array"
      · cases hit : s.items with
        | some its => rw [reformat_obj_array fields s its hty hit]; rfl
        | none => rw [reformat_obj_array_noitems fields s hty hit]; rfl
      · by_cases hto : s.type = "object"
        · cases hpr : s.properties with
          | some props => rw [reformat_obj_object fields s props hto hpr]; rfl
          | none => rw [reformat_obj_object_noprops fields s hto hpr]; rfl
        · rw [reformat_obj_other fields s hty hto]; exact h
    | arr xs =>
      by_cases hty : s.type = "array"
      · cases hit : s.items with
        | some its => rw [reformat_arr_array xs s its hty hit]; rfl
        | none => rw [reformat_arr_array_noitems xs s hty hit]; exact h
      · rw [reformat_arr_other xs s hty]; exact h

/-- Fuel-indexed idempotence of the normalizer. -/
theorem reformat_idem_aux :
    ∀ (n : Nat) (s : SimpleJSONSchema), sizeOf s ≤ n → SchemaWF s →
      ∀ v : JsValue,
        reformatToMatchSchema (reformatToMatchSchema v s) s
          = reformatToMatchSchema v s := by
  intro n
  induction n with
  | zero =>
    intro s hs hwf v
    exfalso
    cases s with
    | mk t p r i => simp at hs
  | succ n ih =>
    intro s hs hwf v
    by_cases hf : jsFalsy v = true
    · rw [reformat_falsy v s hf, reformat_falsy v s hf]
    · cases v with
      | undef => simp [jsFalsy] at hf
      | null => simp [jsFalsy] at hf
      | str sv =>
        rw [reformat_prim (JsValue.str sv) s rfl rfl,
          reformat_prim (JsValue.str sv) s rfl rfl]
      | num nv =>
        rw [reformat_prim (JsValue.num nv) s rfl rfl,
          reformat_prim (JsValue.num nv) s rfl rfl]
      | bool bv =>
        rw [reformat_prim (JsValue.bool bv) s rfl rfl,
          reformat_prim (JsValue.bool bv) s rfl rfl]
      | arr xs =>
        by_cases hty : s.type = "array"
        · cases hit : s.items with
          | some its =>
            rw [reformat_arr_array xs s its hty hit,
              reformat_arr_array _ s its hty hit, List.map_map]
            congr 1
            apply List.map_congr_left
            intro x hx
            have hsz : sizeOf its ≤ n := by
              have := sizeOf_items_lt s its hit
              omega
            exact ih its hsz (SchemaWF.items_of s its hwf hit) x
          | none =>
            rw [reformat_arr_array_noitems xs s hty hit,
              reformat_arr_array_noitems xs s hty hit]
        · rw [reformat_arr_other xs s hty, reformat_arr_other xs s hty]
      | obj fields =>
        by_cases hty : s.type = "array"
        · cases hit : s.items with
          | some its =>
            rw [reformat_obj_array fields s its hty hit,
              reformat_arr_array _ s its hty hit, List.map_map]
            congr 1
            apply List.map_congr_left
            intro kv hkv
            have hsz : sizeOf its ≤ n := by
              have := sizeOf_items_lt s its hit
              omega
            exact ih its hsz (SchemaWF.items_of s its hwf hit) kv.2
          | none =>
            rw [reformat_obj_array_noitems fields s hty hit,
              reformat_arr_array_noitems _ s hty hit]
        · by_cases hto : s.type = "object"
          · cases hpr : s.properties with
            | some props =>
              rw [reformat_obj_object fields s props hto hpr,
                reformat_obj_object _ s props hto hpr]
              congr 1
              obtain ⟨hnd, hwfs⟩ := SchemaWF.props_of s props hwf hpr
              have hndE : ((jsEntries props).map Prod.fst).Nodup :=
                (((jsEntries_perm_self props hnd).map Prod.fst).nodup_iff).mpr hnd
              have main : ∀ rest, (∀ e ∈ rest, e ∈ jsEntries props) →
                  reformatProps (reformatProps fields (jsEntries props)) rest
                    = reformatProps fields rest := by
                intro rest
                induction rest with
                | nil => intro _; rw [reformatProps_nil, reformatProps_nil]
                | cons q rs ihr =>
                  intro hsub
                  obtain ⟨qn, qsch⟩ := q
                  have hq : (qn, qsch) ∈ jsEntries props :=
                    hsub _ (List.mem_cons_self _ _)
                  have hqp : (qn, qsch) ∈ props := mem_of_mem_jsEntries hq
                  have hsz : sizeOf qsch ≤ n := by
                    have h1 := List.sizeOf_lt_of_mem hqp
                    have h2 := sizeOf_properties_lt s props hpr
                    have h3 : sizeOf (qn, qsch) = 1 + sizeOf qn + sizeOf qsch := by
                      simp
                    omega
                  cases hl : lookupField fields qn with
                  | some w =>
                    cases hw : w.isUndef with
                    | true =>
                      rw [reformatProps_cons_found_undef fields qn qsch rs w hl hw,
                        reformatProps_cons_missing _ qn qsch rs
                          (lookupField_reformatProps_undef fields
                            (jsEntries props) qn w hndE hl hw)]
                      exact ihr (fun e he => hsub e (List.mem_cons_of_mem _ he))
                    | false =>
                      rw [reformatProps_cons_found_ok fields qn qsch rs w hl hw,
                        reformatProps_cons_found_ok _ qn qsch rs
                          (reformatToMatchSchema w qsch)
                          (lookupField_reformatProps_some fields
                            (jsEntries props) qn qsch w hndE hq hl hw)
                          (reformat_not_undef w qsch hw)]
                      rw [ih qsch hsz (hwfs _ hqp) w]
                      rw [ihr (fun e he => hsub e (List.mem_cons_of_mem _ he))]
                  | none =>
                    rw [reformatProps_cons_missing fields qn qsch rs hl,
                      reformatProps_cons_missing _ qn qsch rs
                        (lookupField_reformatProps_nofield fields
                          (jsEntries props) qn hl)]
                    exact ihr (fun e he => hsub e (List.mem_cons_of_mem _ he))
              exact main (jsEntries props) (fun e he => he)
            | none =>
              rw [reformat_obj_object_noprops fields s hto hpr,
                reformat_obj_object_noprops [] s hto hpr]
          · rw [reformat_obj_other fields s hty hto,
              reformat_obj_other fields s hty hto]

/-- Claim C6: `reformatToMatchSchema` is idempotent — normalizing an
already-normalized value is a no-op, for every value and every (JS-shaped,
i.e. unique-keyed) schema fragment. -/
theorem c6_reformat_idempotent :
    ∀ (s : SimpleJSONSchema), SchemaWF s →
      ∀ (v : JsValue),
        reformatToMatchSchema (reformatToMatchSchema v s) s
          = reformatToMatchSchema v s :=
  fun s hwf v => reformat_idem_aux (sizeOf s) s le_rfl hwf v

theorem schemaWF_str : SchemaWF strSchema :=
  SchemaWF.intro _ _ _ _ (fun _ h => nomatch h) (fun _ h => nomatch h)
    (fun _ h => nomatch h)

theorem schemaWF_nameItem : SchemaWF nameItemSchema := by
  refine SchemaWF.intro _ _ _ _ ?_ ?_ (fun _ h => nomatch h)
  · intro ps h
    cases h
    decide
  · intro ps h
    cases h
    intro kv hkv
    simp at hkv
    rw [hkv]
    exact schemaWF_str

theorem schemaWF_arrItems : SchemaWF arrItemsSchema := by
  refine SchemaWF.intro _ _ _ _ (fun _ h => nomatch h) (fun _ h => nomatch h) ?_
  intro its h
  cases h
  exact schemaWF_nameItem

theorem schemaWF_top : SchemaWF topSchema := by
  refine SchemaWF.intro _ _ _ _ ?_ ?_ (fun _ h => nomatch h)
  · intro ps h
    cases h
    decide
  · intro ps h
    cases h
    intro kv hkv
    simp at hkv
    rw [hkv]
    exact schemaWF_arrItems

/-- Witness for C6 on a concrete mapping against `topSchema`. -/
theorem c6_witness :
    reformatToMatchSchema
        (reformatToMatchSchema
          (JsValue.obj [("items", JsValue.obj
            [("b", JsValue.obj [("name", JsValue.str "1")]),
             ("a", JsValue.obj [("name", JsValue.str "2")])])]) topSchema)
        topSchema
      = reformatToMatchSchema
          (JsValue.obj [("items", JsValue.obj
            [("b", JsValue.obj [("name", JsValue.str "1")]),
             ("a", JsValue.obj [("name", JsValue.str "2")])])]) topSchema :=
  c6_reformat_idempotent topSchema schemaWF_top _

/-! ### C5: document order of array elements -/

/-- The root frame of a parse against `topSchema`. -/
def rootFrame : Frame := { path := "root", schema := topSchema, depth := 0 }

/-- The frame pushed by the level-1 `items` heading. -/
def itemsFrame : Frame := { path := "items", schema := arrItemsSchema, depth := 1 }

/-- The frame pushed by a level-2 element heading with (normalized) label `k`. -/
def elemFrame (k : String) : Frame :=
  { path := k, schema := nameItemSchema, depth := 2 }

/-- The frame pushed by a level-3 `name` heading. -/
def nameFrame : Frame := { path := "name", schema := strSchema, depth := 3 }

/-- The raw-result entry produced for one element section. -/
def elemEntry (q : String × String) : String × JsValue :=
  (lowerCaseFirst q.1, JsValue.obj [("name", JsValue.str q.2)])

/-- The field list a `baseSet` walk step continues into when the current
entry is `null` (replaced by a fresh `{}`, provided the next key is not an
index) or an object (kept). -/
def asFields : JsValue → Option (List (String × JsValue))
  | JsValue.null => some []
  | JsValue.obj fs => some fs
  | _ => none

/-- `set` on an object target runs the `baseSet` walk. -/
theorem setPath_obj (RF : List (String × JsValue)) (p : List String)
    (x : JsValue) :
    setPath (JsValue.obj RF) p x = setPathIn (JsValue.obj RF) p x := rfl

/-- The final walk segment on an object is a plain property write. -/
theorem setPathIn_obj_last (m : List (String × JsValue)) (k : String)
    (x : JsValue) :
    setPathIn (JsValue.obj m) [k] x = JsValue.obj (setField m k x) := rfl

/-- One walk step on an object whose entry at the key is `null` or an
object: an object intermediate is kept; a `null` one is replaced by `{}`
when the next key is not an index. -/
theorem setPathIn_obj_step (m : List (String × JsValue)) (k1 k2 : String)
    (rest : List String) (x cur : JsValue) (m2 : List (String × JsValue))
    (hl : lookupField m k1 = some cur) (hm : asFields cur = some m2)
    (hk : cur = JsValue.null → isIndex k2 = false) :
    setPathIn (JsValue.obj m) (k1 :: k2 :: rest) x
      = JsValue.obj (setField m k1 (setPathIn (JsValue.obj m2) (k2 :: rest) x)) := by
  show writeField (JsValue.obj m) k1 (setPathIn
      (cond (isObjectJs ((readField (JsValue.obj m) k1).getD JsValue.undef))
        ((readField (JsValue.obj m) k1).getD JsValue.undef)
        (cond (isIndex k2) (JsValue.arr []) (JsValue.obj []))) (k2 :: rest) x) = _
  rw [show readField (JsValue.obj m) k1 = lookupField m k1 from rfl, hl,
    Option.getD_some]
  cases cur with
  | null =>
    simp only [asFields, Option.some.injEq] at hm
    subst hm
    rw [show isObjectJs JsValue.null = false from rfl, cond_false, hk rfl,
      cond_false]
    rfl
  | obj fs =>
    simp only [asFields, Option.some.injEq] at hm
    subst hm
    rfl
  | undef => simp [asFields] at hm
  | str sv => simp [asFields] at hm
  | num nv => simp [asFields] at hm
  | bool bv => simp [asFields] at hm
  | arr xs => simp [asFields] at hm

theorem lookupField_setField_self {α : Type} (L : List (String × α))
    (k : String) (v : α) : lookupField (setField L k v) k = some v := by
  induction L with
  | nil => simp [setField, lookupField]
  | cons q rest ih =>
    obtain ⟨qk, qv⟩ := q
    by_cases h : qk = k
    · subst h
      simp [setField, lookupField]
    · simp [setField, lookupField, h, ih]

theorem setField_setField {α : Type} (L : List (String × α)) (k : String)
    (v w : α) : setField (setField L k v) k w = setField L k w := by
  induction L with
  | nil => simp [setField]
  | cons q rest ih =>
    obtain ⟨qk, qv⟩ := q
    by_cases h : qk = k
    · subst h
      simp [setField]
    · simp [setField, h, ih]

theorem setField_of_notmem {α : Type} (L : List (String × α)) (k : String)
    (v : α) (h : lookupField L k = none) : setField L k v = L ++ [(k, v)] := by
  induction L with
  | nil => rfl
  | cons q rest ih =>
    obtain ⟨qk, qv⟩ := q
    by_cases hk : qk = k
    · subst hk
      simp [lookupField] at h
    · simp [lookupField, hk] at h
      simp [setField, hk, ih h]

theorem lookupField_append_fresh {α : Type} (m : List (String × α))
    (k : String) (x : α) (h : lookupField m k = none) :
    lookupField (m ++ [(k, x)]) k = some x := by
  induction m with
  | nil => simp [lookupField]
  | cons q rest ih =>
    obtain ⟨qk, qv⟩ := q
    by_cases hk : qk = k
    · subst hk
      simp [lookupField] at h
    · simp [lookupField, hk] at h ⊢
      exact ih h

theorem lookupField_append_none {α : Type} (m : List (String × α))
    (k k' : String) (x : α) (h : lookupField m k' = none) (hne : ¬k = k') :
    lookupField (m ++ [(k, x)]) k' = none := by
  induction m with
  | nil => simp [lookupField, hne]
  | cons q rest ih =>
    obtain ⟨qk, qv⟩ := q
    by_cases hk : qk = k'
    · subst hk
      simp [lookupField] at h
    · simp [lookupField, hk] at h ⊢
      exact ih h

theorem setField_append_last {α : Type} (m : List (String × α)) (k : String)
    (x y : α) (h : lookupField m k = none) :
    setField (m ++ [(k, x)]) k y = m ++ [(k, y)] := by
  induction m with
  | nil => simp [setField]
  | cons q rest ih =>
    obtain ⟨qk, qv⟩ := q
    by_cases hk : qk = k
    · subst hk
      simp [lookupField] at h
    · simp [lookupField, hk] at h
      simp [setField, hk, ih h]

theorem popToDepth_append_high (d : Nat) (ext t : List Frame)
    (h : ∀ f ∈ ext, d ≤ f.depth) :
    popToDepth d (ext ++ t) = popToDepth d t := by
  induction ext with
  | nil => rfl
  | cons f rest ih =>
    rw [List.cons_append]
    simp only [popToDepth]
    rw [if_pos (h f (List.mem_cons_self _ _))]
    exact ih (fun g hg => h g (List.mem_cons_of_mem _ hg))

theorem getPath_obj_step (fields : List (String × JsValue)) (key : String)
    (rest : List String) (w : JsValue) (hne : rest ≠ [])
    (hl : lookupField fields key = some w) :
    getPath (JsValue.obj fields) (key :: rest) = getPath w rest := by
  cases rest with
  | nil => exact absurd rfl hne
  | cons a b => simp [getPath, readField, hl]

theorem getPath_obj_last (fields : List (String × JsValue)) (key : String)
    (w : JsValue) (hl : lookupField fields key = some w) :
    getPath (JsValue.obj fields) [key] = some w := by
  simp [getPath, readField, hl]

/-- `addValue` unfolded, given the current path, current value and merge. -/
theorem addValue_eq (ctx : ContextDto) (value : JsValue) (p : List String)
    (cur : Option JsValue) (nv : JsValue)
    (hp : getPropertyPath ctx.tree = p)
    (hc : getPath ctx.result p = cur)
    (hm : mergeValue cur value = Except.ok nv) :
    addValue ctx value
      = Except.ok { ctx with result := setPath ctx.result p nv } := by
  simp only [addValue]
  rw [hp, hc, hm]

theorem parseChildValue_text (s : String) (po : Bool) :
    parseChildValue [MdNode.text s] po = Except.ok s := by
  simp [parseChildValue, parseChildValueAux, parseStringType]

theorem parseValue_paragraph_text (v : String) :
    parseValue (MdNode.paragraph [MdNode.text v]) "string"
      = Except.ok (JsValue.str v) := by
  unfold parseValue
  rw [if_neg (by decide), if_pos rfl]
  simp [parseStringType, parseChildValueAux]

/-- Step A of an element block: the level-2 heading resolves through the
array's `items` fragment, pushes the element frame keyed by the normalized
label, and — the label not being an array index — seeds the mapping at
`items` with the new label appended last. -/
theorem stepA (ext : List Frame) (RF : List (String × JsValue)) (cur : JsValue)
    (m : List (String × JsValue)) (lab : String)
    (hext : ∀ f ∈ ext, 2 ≤ f.depth)
    (hRF : lookupField RF "items" = some cur)
    (hm : asFields cur = some m)
    (hki : isIndex (lowerCaseFirst lab) = false)
    (hfresh : lookupField m (lowerCaseFirst lab) = none) :
    reduceStep
      { tree := ext ++ [itemsFrame, rootFrame], result := JsValue.obj RF }
      (MdNode.heading 2 [MdNode.text lab])
      = Except.ok
        { tree := [elemFrame (lowerCaseFirst lab), itemsFrame, rootFrame],
          result := JsValue.obj (setField RF "items"
            (JsValue.obj (m ++ [(lowerCaseFirst lab, JsValue.null)]))) } := by
  have hpop : popToDepth 2
      (({ tree := ext ++ [itemsFrame, rootFrame],
          result := JsValue.obj RF } : ContextDto).tree)
      = [itemsFrame, rootFrame] :=
    popToDepth_append_high 2 ext [itemsFrame, rootFrame] hext
  rw [reduceStep_heading _ 2 [MdNode.text lab] lab (parseChildValue_text lab false),
    hpop]
  have hgp : getPropertySchema [itemsFrame, rootFrame] (lowerCaseFirst lab) = none := rfl
  rw [hgp]
  show Except.ok (addProperty
      { tree := [itemsFrame, rootFrame], result := JsValue.obj RF }
      (lowerCaseFirst lab) 2 nameItemSchema) = _
  have hres : setPath (JsValue.obj RF) ["items", lowerCaseFirst lab] JsValue.null
      = JsValue.obj (setField RF "items"
          (JsValue.obj (m ++ [(lowerCaseFirst lab, JsValue.null)]))) := by
    rw [setPath_obj,
      setPathIn_obj_step RF "items" (lowerCaseFirst lab) [] JsValue.null cur m
        hRF hm (fun _ => hki),
      setPathIn_obj_last]
    rw [setField_of_notmem m _ _ hfresh]
  show Except.ok
      ({ tree := [elemFrame (lowerCaseFirst lab), itemsFrame, rootFrame],
         result := setPath (JsValue.obj RF) ["items", lowerCaseFirst lab]
           JsValue.null } : ContextDto) = _
  rw [hres]

/-- Step B of an element block: the level-3 `name` heading resolves to the
declared `name` property and seeds `[items, label, name]` with `null`,
replacing the just-seeded `null` under the label by a fresh object. -/
theorem stepB (RF m : List (String × JsValue)) (k : String)
    (hfresh : lookupField m k = none) :
    reduceStep
      { tree := [elemFrame k, itemsFrame, rootFrame],
        result := JsValue.obj (setField RF "items"
          (JsValue.obj (m ++ [(k, JsValue.null)]))) }
      (MdNode.heading 3 [MdNode.text "name"])
      = Except.ok
        { tree := [nameFrame, elemFrame k, itemsFrame, rootFrame],
          result := JsValue.obj (setField RF "items"
            (JsValue.obj (m ++ [(k, JsValue.obj [("name", JsValue.null)])]))) } := by
  rw [reduceStep_heading _ 3 [MdNode.text "name"] "name"
    (parseChildValue_text "name" false)]
  have hgp : getPropertySchema [elemFrame k, itemsFrame, rootFrame]
      (lowerCaseFirst "name") = some strSchema := rfl
  rw [show popToDepth 3
      (({ tree := [elemFrame k, itemsFrame, rootFrame],
          result := JsValue.obj (setField RF "items"
            (JsValue.obj (m ++ [(k, JsValue.null)]))) } : ContextDto).tree)
      = [elemFrame k, itemsFrame, rootFrame] from rfl, hgp]
  show Except.ok (addProperty
      { tree := [elemFrame k, itemsFrame, rootFrame],
        result := JsValue.obj (setField RF "items"
          (JsValue.obj (m ++ [(k, JsValue.null)]))) }
      (lowerCaseFirst "name") 3 strSchema) = _
  have hres : setPath
      (JsValue.obj (setField RF "items" (JsValue.obj (m ++ [(k, JsValue.null)]))))
      ["items", k, "name"] JsValue.null
      = JsValue.obj (setField RF "items"
          (JsValue.obj (m ++ [(k, JsValue.obj [("name", JsValue.null)])]))) := by
    rw [setPath_obj,
      setPathIn_obj_step (setField RF "items" (JsValue.obj (m ++ [(k, JsValue.null)])))
        "items" k ["name"] JsValue.null
        (JsValue.obj (m ++ [(k, JsValue.null)])) (m ++ [(k, JsValue.null)])
        (lookupField_setField_self RF "items" _) rfl
        (fun h => JsValue.noConfusion h),
      setPathIn_obj_step (m ++ [(k, JsValue.null)]) k "name" [] JsValue.null
        JsValue.null []
        (lookupField_append_fresh m k JsValue.null hfresh) rfl
        (fun _ => by decide),
      setPathIn_obj_last]
    rw [setField_append_last m k _ _ hfresh, setField_setField]
    rfl
  show Except.ok
      ({ tree := [nameFrame, elemFrame k, itemsFrame, rootFrame],
         result := setPath
           (JsValue.obj (setField RF "items"
             (JsValue.obj (m ++ [(k, JsValue.null)]))))
           ["items", k, "name"] JsValue.null } : ContextDto) = _
  rw [hres]

/-- Step C of an element block: the paragraph's text is extracted against
the `string` fragment and replaces the seeded `null` at
`[items, label, name]`. -/
theorem stepC (RF m : List (String × JsValue)) (k v : String)
    (hfresh : lookupField m k = none) :
    reduceStep
      { tree := [nameFrame, elemFrame k, itemsFrame, rootFrame],
        result := JsValue.obj (setField RF "items"
          (JsValue.obj (m ++ [(k, JsValue.obj [("name", JsValue.null)])]))) }
      (MdNode.paragraph [MdNode.text v])
      = Except.ok
        { tree := [nameFrame, elemFrame k, itemsFrame, rootFrame],
          result := JsValue.obj (setField RF "items"
            (JsValue.obj (m ++ [(k, JsValue.obj [("name", JsValue.str v)])]))) } := by
  rw [reduceStep_default_cons _ (MdNode.paragraph [MdNode.text v]) nameFrame
    [elemFrame k, itemsFrame, rootFrame] rfl rfl]
  rw [show nameFrame.schema.type = "string" from rfl, parseValue_paragraph_text v]
  have hcur : getPath
      (JsValue.obj (setField RF "items"
        (JsValue.obj (m ++ [(k, JsValue.obj [("name", JsValue.null)])]))))
      ["items", k, "name"] = some JsValue.null := by
    rw [getPath_obj_step _ "items" [k, "name"] _ (by simp)
        (lookupField_setField_self RF "items" _),
      getPath_obj_step _ k ["name"] _ (by simp)
        (lookupField_append_fresh m k _ hfresh),
      getPath_obj_last _ "name" _ (lookupField_cons_eq "name" JsValue.null [])]
  show addValue
      { tree := [nameFrame, elemFrame k, itemsFrame, rootFrame],
        result := JsValue.obj (setField RF "items"
          (JsValue.obj (m ++ [(k, JsValue.obj [("name", JsValue.null)])]))) }
      (JsValue.str v) = _
  rw [addValue_eq
    { tree := [nameFrame, elemFrame k, itemsFrame, rootFrame],
      result := JsValue.obj (setField RF "items"
        (JsValue.obj (m ++ [(k, JsValue.obj [("name", JsValue.null)])]))) }
    (JsValue.str v) ["items", k, "name"] (some JsValue.null)
    (JsValue.str v) rfl hcur rfl]
  have hres : setPath
      (JsValue.obj (setField RF "items"
        (JsValue.obj (m ++ [(k, JsValue.obj [("name", JsValue.null)])]))))
      ["items", k, "name"] (JsValue.str v)
      = JsValue.obj (setField RF "items"
          (JsValue.obj (m ++ [(k, JsValue.obj [("name", JsValue.str v)])]))) := by
    rw [setPath_obj,
      setPathIn_obj_step
        (setField RF "items"
          (JsValue.obj (m ++ [(k, JsValue.obj [("name", JsValue.null)])])))
        "items" k ["name"] (JsValue.str v)
        (JsValue.obj (m ++ [(k, JsValue.obj [("name", JsValue.null)])]))
        (m ++ [(k, JsValue.obj [("name", JsValue.null)])])
        (lookupField_setField_self RF "items" _) rfl
        (fun h => JsValue.noConfusion h),
      setPathIn_obj_step (m ++ [(k, JsValue.obj [("name", JsValue.null)])])
        k "name" [] (JsValue.str v)
        (JsValue.obj [("name", JsValue.null)]) [("name", JsValue.null)]
        (lookupField_append_fresh m k _ hfresh) rfl
        (fun h => JsValue.noConfusion h),
      setPathIn_obj_last]
    rw [setField_append_last m k _ _ hfresh, setField_setField]
    rfl
  rw [hres]

theorem reduceAst_cons (ctx : ContextDto) (item : MdNode) (rest : List MdNode) :
    reduceAst ctx (item :: rest)
      = (match reduceStep ctx item with
         | Except.ok c => reduceAst c rest
         | Except.error e => Except.error e) := rfl

theorem reduceAst_cons_ok (ctx c : ContextDto) (item : MdNode)
    (rest : List MdNode) (h : reduceStep ctx item = Except.ok c) :
    reduceAst ctx (item :: rest) = reduceAst c rest := by
  rw [reduceAst_cons, h]

theorem reduceAst_append (ctx : ContextDto) (l1 l2 : List MdNode) :
    reduceAst ctx (l1 ++ l2)
      = (match reduceAst ctx l1 with
         | Except.ok c => reduceAst c l2
         | Except.error e => Except.error e) := by
  induction l1 generalizing ctx with
  | nil => rfl
  | cons a r ih =>
    rw [List.cons_append, reduceAst_cons, reduceAst_cons]
    cases h : reduceStep ctx a with
    | ok c => exact ih c
    | error e => rfl

theorem reduceAst_append_ok (ctx c : ContextDto) (l1 l2 : List MdNode)
    (h : reduceAst ctx l1 = Except.ok c) :
    reduceAst ctx (l1 ++ l2) = reduceAst c l2 := by
  rw [reduceAst_append, h]

/-- One whole element block, from any state whose stack sits above the
`items` frame: the three steps append exactly one entry (keyed by the
normalized label, in last position) to the mapping at `items`. -/
theorem blockStep (ext : List Frame) (RF : List (String × JsValue))
    (cur : JsValue) (m : List (String × JsValue)) (lab v : String)
    (hext : ∀ f ∈ ext, 2 ≤ f.depth)
    (hRF : lookupField RF "items" = some cur)
    (hm : asFields cur = some m)
    (hki : isIndex (lowerCaseFirst lab) = false)
    (hfresh : lookupField m (lowerCaseFirst lab) = none) :
    reduceAst
      { tree := ext ++ [itemsFrame, rootFrame], result := JsValue.obj RF }
      (elemBlock (lab, v))
      = Except.ok
        { tree := [nameFrame, elemFrame (lowerCaseFirst lab)]
            ++ [itemsFrame, rootFrame],
          result := JsValue.obj (setField RF "items"
            (JsValue.obj (m ++ [elemEntry (lab, v)]))) } := by
  show reduceAst _ [MdNode.heading 2 [MdNode.text lab],
    MdNode.heading 3 [MdNode.text "name"], MdNode.paragraph [MdNode.text v]] = _
  rw [reduceAst_cons_ok _ _ _ _ (stepA ext RF cur m lab hext hRF hm hki hfresh),
    reduceAst_cons_ok _ _ _ _ (stepB RF m (lowerCaseFirst lab) hfresh),
    reduceAst_cons_ok _ _ _ _ (stepC RF m (lowerCaseFirst lab) v hfresh)]
  rfl

/-- Running all element blocks appends one entry per pair, in document
order, to the mapping at `items`. -/
theorem runLemma :
    ∀ (pairs : List (String × String)) (ext : List Frame)
      (RF : List (String × JsValue)) (cur : JsValue)
      (m : List (String × JsValue)),
      pairs ≠ [] →
      (∀ f ∈ ext, 2 ≤ f.depth) →
      lookupField RF "items" = some cur →
      asFields cur = some m →
      (pairs.map fun q => lowerCaseFirst q.1).Nodup →
      (∀ q ∈ pairs, isIndex (lowerCaseFirst q.1) = false) →
      (∀ q ∈ pairs, lookupField m (lowerCaseFirst q.1) = none) →
      ∃ k, reduceAst
          { tree := ext ++ [itemsFrame, rootFrame], result := JsValue.obj RF }
          ((pairs.map elemBlock).flatten)
        = Except.ok
          { tree := [nameFrame, elemFrame k, itemsFrame, rootFrame],
            result := JsValue.obj (setField RF "items"
              (JsValue.obj (m ++ pairs.map elemEntry))) } := by
  intro pairs
  induction pairs with
  | nil => intro ext RF cur m hne; exact absurd rfl hne
  | cons q rest ih =>
    intro ext RF cur m _ hext hRF hm hnd hki hfresh
    obtain ⟨lab, v⟩ := q
    have hfq : lookupField m (lowerCaseFirst lab) = none :=
      hfresh (lab, v) (List.mem_cons_self _ _)
    have hkq : isIndex (lowerCaseFirst lab) = false :=
      hki (lab, v) (List.mem_cons_self _ _)
    rw [List.map_cons, List.flatten_cons]
    rw [reduceAst_append_ok _ _ _ _
      (blockStep ext RF cur m lab v hext hRF hm hkq hfq)]
    cases rest with
    | nil =>
      refine ⟨lowerCaseFirst lab, ?_⟩
      rfl
    | cons q2 rest2 =>
      have hnd' : ((q2 :: rest2).map fun p => lowerCaseFirst p.1).Nodup := by
        rw [List.map_cons] at hnd
        exact (List.nodup_cons.mp hnd).2
      have hlabfresh : lowerCaseFirst lab
          ∉ (q2 :: rest2).map fun p => lowerCaseFirst p.1 := by
        rw [List.map_cons] at hnd
        exact (List.nodup_cons.mp hnd).1
      have hext' : ∀ f ∈ ([nameFrame, elemFrame (lowerCaseFirst lab)] : List Frame),
          2 ≤ f.depth := by
        intro f hf
        rcases List.mem_cons.mp hf with h | h
        · rw [h]; decide
        · rcases List.mem_cons.mp h with h2 | h2
          · rw [h2]; show 2 ≤ 2; decide
          · simp at h2
      have hfresh' : ∀ q' ∈ q2 :: rest2,
          lookupField (m ++ [elemEntry (lab, v)]) (lowerCaseFirst q'.1) = none := by
        intro q' hq'
        apply lookupField_append_none
        · exact hfresh q' (List.mem_cons_of_mem _ hq')
        · intro e
          exact hlabfresh (e ▸ List.mem_map_of_mem _ hq')
      have hki' : ∀ q' ∈ q2 :: rest2, isIndex (lowerCaseFirst q'.1) = false :=
        fun q' hq' => hki q' (List.mem_cons_of_mem _ hq')
      obtain ⟨k2, hred⟩ := ih [nameFrame, elemFrame (lowerCaseFirst lab)]
        (setField RF "items" (JsValue.obj (m ++ [elemEntry (lab, v)])))
        (JsValue.obj (m ++ [elemEntry (lab, v)]))
        (m ++ [elemEntry (lab, v)])
        (by simp) hext' (lookupField_setField_self RF "items" _) rfl hnd' hki' hfresh'
      refine ⟨k2, ?_⟩
      rw [hred, setField_setField]
      rw [show (m ++ [elemEntry (lab, v)]) ++ (q2 :: rest2).map elemEntry
          = m ++ ((lab, v) :: q2 :: rest2).map elemEntry from by simp]

/-- The opening `# items` heading pushes the array frame and seeds the
`items` path with `null`. -/
theorem stepH1 :
    reduceStep (initCtx topSchema) (MdNode.heading 1 [MdNode.text "items"])
      = Except.ok
        { tree := [itemsFrame, rootFrame],
          result := JsValue.obj [("items", JsValue.null)] } := rfl

/-- The assembly pass on the whole sibling-heading document: the raw result
maps `items` to a label-keyed mapping whose entries are in document order. -/
theorem reduceDoc (pairs : List (String × String)) (hne : pairs ≠ [])
    (hnd : (pairs.map fun q => lowerCaseFirst q.1).Nodup)
    (hki : ∀ q ∈ pairs, isIndex (lowerCaseFirst q.1) = false) :
    reduceAstToObject (arrayDoc pairs) topSchema
      = Except.ok (JsValue.obj [("items", JsValue.obj (pairs.map elemEntry))]) := by
  obtain ⟨k, hred⟩ := runLemma pairs [] [("items", JsValue.null)] JsValue.null []
    hne (fun f hf => absurd hf (List.not_mem_nil f)) rfl rfl hnd hki
    (fun q hq => rfl)
  rw [List.nil_append] at hred
  unfold reduceAstToObject
  rw [show arrayDoc pairs
      = MdNode.heading 1 [MdNode.text "items"] :: (pairs.map elemBlock).flatten
      from rfl]
  rw [reduceAst_cons_ok _ _ _ _ stepH1, hred]
  show Except.ok (JsValue.obj (setField [("items", JsValue.null)] "items"
      (JsValue.obj ([] ++ pairs.map elemEntry)))) = _
  simp [setField]

theorem reformat_elem (v : String) :
    reformatToMatchSchema (JsValue.obj [("name", JsValue.str v)]) nameItemSchema
      = JsValue.obj [("name", JsValue.str v)] := by
  rw [reformat_obj_object _ nameItemSchema [("name", strSchema)] rfl rfl]
  rw [show jsEntries [("name", strSchema)] = [("name", strSchema)] from rfl]
  rw [reformatProps_cons_found_ok [("name", JsValue.str v)] "name" strSchema []
    (JsValue.str v) (lookupField_cons_eq "name" (JsValue.str v) []) rfl]
  rw [reformatProps_nil, reformat_prim (JsValue.str v) strSchema rfl rfl]

/-- Normalizing each raw-result entry of the mapping leaves it unchanged,
entry by entry along the list. -/
theorem reformat_elems (pairs : List (String × String)) :
    (pairs.map elemEntry).map (fun kv => reformatToMatchSchema kv.2 nameItemSchema)
      = pairs.map fun q => JsValue.obj [("name", JsValue.str q.2)] := by
  induction pairs with
  | nil => rfl
  | cons q rest ih =>
      simp only [List.map_cons]
      rw [ih]
      rw [show (elemEntry q).2 = JsValue.obj [("name", JsValue.str q.2)] from rfl]
      rw [reformat_elem q.2]

/-- The normalized-label key list of the raw mapping. -/
theorem elemEntry_keys (pairs : List (String × String)) :
    (pairs.map elemEntry).map Prod.fst = pairs.map fun q => lowerCaseFirst q.1 := by
  induction pairs with
  | nil => rfl
  | cons q rest ih =>
    simp only [List.map_cons]
    rw [ih]
    rfl

/-- Normalizing the raw result flattens the mapping to an array in the
mapping's insertion order, i.e. document order — provided no normalized
label is an array-index key (otherwise `Object.keys` enumerates it first,
numerically). -/
theorem reformat_final (pairs : List (String × String))
    (hnd : (pairs.map fun q => lowerCaseFirst q.1).Nodup)
    (hki : ∀ q ∈ pairs, isIndex (lowerCaseFirst q.1) = false) :
    reformatToMatchSchema
        (JsValue.obj [("items", JsValue.obj (pairs.map elemEntry))]) topSchema
      = JsValue.obj [("items", JsValue.arr (pairs.map fun q =>
          JsValue.obj [("name", JsValue.str q.2)]))] := by
  have hndE : ((pairs.map elemEntry).map Prod.fst).Nodup := by
    rw [elemEntry_keys]
    exact hnd
  have hniE : ∀ kv ∈ pairs.map elemEntry, isArrayIndexKey kv.1 = false := by
    intro kv hkv
    obtain ⟨q, hq, rfl⟩ := List.mem_map.mp hkv
    exact isArrayIndexKey_false_of_isIndex_false _ (hki q hq)
  rw [reformat_obj_object _ topSchema [("items", arrItemsSchema)] rfl rfl]
  rw [show jsEntries [("items", arrItemsSchema)] = [("items", arrItemsSchema)] from rfl]
  rw [reformatProps_cons_found_ok _ "items" arrItemsSchema []
    (JsValue.obj (pairs.map elemEntry)) (lookupField_cons_eq _ _ _) rfl]
  rw [reformatProps_nil]
  rw [reformat_obj_array _ arrItemsSchema nameItemSchema rfl rfl]
  rw [jsEntries_eq_self (pairs.map elemEntry) hndE hniE]
  rw [reformat_elems pairs]

/-- Normalizing the sparse raw array of the numeric-label counterexample:
the hole stays (it is falsy), each present element reformats to itself. -/
theorem reformat_c5cex :
    reformatToMatchSchema
        (JsValue.obj [("items", JsValue.arr
          [JsValue.undef, JsValue.obj [("name", JsValue.str "b")],
           JsValue.obj [("name", JsValue.str "a")]])]) topSchema
      = JsValue.obj [("items", JsValue.arr
          [JsValue.undef, JsValue.obj [("name", JsValue.str "b")],
           JsValue.obj [("name", JsValue.str "a")]])] := by
  rw [reformat_obj_object _ topSchema [("items", arrItemsSchema)] rfl rfl]
  rw [show jsEntries [("items", arrItemsSchema)] = [("items", arrItemsSchema)] from rfl]
  rw [reformatProps_cons_found_ok _ "items" arrItemsSchema []
    (JsValue.arr [JsValue.undef, JsValue.obj [("name", JsValue.str "b")],
      JsValue.obj [("name", JsValue.str "a")]])
    (lookupField_cons_eq _ _ _) rfl]
  rw [reformatProps_nil]
  rw [reformat_arr_array _ arrItemsSchema nameItemSchema rfl rfl]
  show JsValue.obj [("items", JsValue.arr
      [reformatToMatchSchema JsValue.undef nameItemSchema,
       reformatToMatchSchema (JsValue.obj [("name", JsValue.str "b")]) nameItemSchema,
       reformatToMatchSchema (JsValue.obj [("name", JsValue.str "a")]) nameItemSchema])]
    = _
  rw [reformat_falsy JsValue.undef nameItemSchema rfl, reformat_elem "b",
    reformat_elem "a"]

/-- Counterexample for C5 as stated: with the integer-like labels `2` then
`1` (document order: value `a` then value `b`), lodash `set` finds `null`
at `items`, sees `isIndex('2')`, and creates a sparse ARRAY indexed
numerically — so `parse` returns `[<hole>, {name: "b"}, {name: "a"}]`,
numeric label order, not the document order `[{name: "a"}, {name: "b"}]`. -/
theorem c5_counterexample :
    parse (fun _ _ => []) (arrayDoc [("2", "a"), ("1", "b")]) topSchema
      = Except.ok (JsValue.obj [("items", JsValue.arr
          [JsValue.undef, JsValue.obj [("name", JsValue.str "b")],
           JsValue.obj [("name", JsValue.str "a")]])])
    ∧ JsValue.arr [JsValue.undef, JsValue.obj [("name", JsValue.str "b")],
          JsValue.obj [("name", JsValue.str "a")]]
      ≠ JsValue.arr [JsValue.obj [("name", JsValue.str "a")],
          JsValue.obj [("name", JsValue.str "b")]] := by
  constructor
  · unfold parse
    rw [show reduceAstToObject (arrayDoc [("2", "a"), ("1", "b")]) topSchema
        = Except.ok (JsValue.obj [("items", JsValue.arr
            [JsValue.undef, JsValue.obj [("name", JsValue.str "b")],
             JsValue.obj [("name", JsValue.str "a")]])]) from rfl]
    show Except.ok (reformatToMatchSchema (JsValue.obj [("items", JsValue.arr
        [JsValue.undef, JsValue.obj [("name", JsValue.str "b")],
         JsValue.obj [("name", JsValue.str "a")]])]) topSchema) = _
    rw [reformat_c5cex]
  · intro h
    simp at h

/-- Claim C5 (amended): for a schema path of kind array-of-object populated
by sibling headings whose normalized labels are NOT integer-like (not array
indices — with such labels lodash `set` builds a sparse array keyed
numerically, see the counterexample), the normalized sequence lists the
elements in the order their headings appear in the document.  Part 1:
flattening a label-keyed mapping under an `array` schema preserves the
mapping's insertion order when no key is an array-index key.  Part 2:
end-to-end, for every nonempty list of (label, value) sections with
distinct, non-index normalized labels, `parse` yields the array in document
order. -/
theorem c5_document_order :
    (∀ (fields : List (String × JsValue)) (s its : SimpleJSONSchema),
        s.type = "array" → s.items = some its →
        (fields.map Prod.fst).Nodup →
        (∀ kv ∈ fields, isArrayIndexKey kv.1 = false) →
        reformatToMatchSchema (JsValue.obj fields) s
          = JsValue.arr (fields.map fun kv => reformatToMatchSchema kv.2 its))
    ∧ (∀ pairs : List (String × String), pairs ≠ [] →
        (pairs.map fun q => lowerCaseFirst q.1).Nodup →
        (∀ q ∈ pairs, isIndex (lowerCaseFirst q.1) = false) →
        parse (fun _ _ => []) (arrayDoc pairs) topSchema
          = Except.ok (JsValue.obj [("items",
              JsValue.arr (pairs.map fun q =>
                JsValue.obj [("name", JsValue.str q.2)]))])) := by
  constructor
  · intro fields s its hty hit hnd hni
    rw [reformat_obj_array fields s its hty hit,
      jsEntries_eq_self fields hnd hni]
  · intro pairs hne hnd hki
    unfold parse
    rw [reduceDoc pairs hne hnd hki]
    show Except.ok (reformatToMatchSchema
        (JsValue.obj [("items", JsValue.obj (pairs.map elemEntry))]) topSchema) = _
    rw [reformat_final pairs hnd hki]

/-- Witness for C5: two sections labelled `zeta` then `alpha` (both
non-index labels) come out in document order (`zeta`'s value first), not
label order. -/
theorem c5_witness :
    parse (fun _ _ => []) (arrayDoc [("zeta", "1"), ("alpha", "2")]) topSchema
      = Except.ok (JsValue.obj [("items", JsValue.arr
          [JsValue.obj [("name", JsValue.str "1")],
           JsValue.obj [("name", JsValue.str "2")]])]) :=
  c5_document_order.2 [("zeta", "1"), ("alpha", "2")]
    (List.cons_ne_nil _ _) (by decide) (by decide)

end MDP
